import Mathlib

/-!
Verification of the property reconciliation and migration engine of
dbt-invoke (src/dbt_invoke/properties.py, src/dbt_invoke/internal/_utils.py).

The Python code is shallowly embedded: property documents become explicit
Lean structures, Python dict/list accesses that can raise become Except
computations, and the textual content of a written YAML file is produced by
an executable serializer mirroring yaml.safe_dump with sort_keys=False.
-/

/-! ## Python string primitives used by the code under verification -/

/-- Model of Python str.lower applied character-wise. -/
def pyLowerChars (l : List Char) : List Char :=
  l.map Char.toLower

/-- Model of Python str.strip: drop whitespace from both ends. -/
def pyStripChars (l : List Char) : List Char :=
  (((l.dropWhile Char.isWhitespace).reverse.dropWhile Char.isWhitespace).reverse)

/-- Substring test: does `needle` occur contiguously inside `hay`?
Models the Python expression `needle in hay` on strings. -/
def containsSub (hay needle : List Char) : Bool :=
  match hay with
  | [] => needle.isEmpty
  | _ :: t => needle.isPrefixOf hay || containsSub t needle

/-! ## Data model

A property document (`PropertyDocument` in the specification) is
`version: 2` plus sections keyed by a plural resource type, each holding an
ordered list of resource records; records and columns carry opaque extra
fields which the tool must never touch
(src/dbt_invoke/properties.py reads and writes these dictionaries). -/

/-- A column entry of a property file: `{name, description, <extras>}`. -/
structure PropColumn where
  name : String
  description : String
  extras : List (String × String)
deriving Repr, DecidableEq

/-- A resource record of a property file:
`{name, description, columns, <extras>}`. -/
structure ResourceRecord where
  name : String
  description : String
  columns : List PropColumn
  extras : List (String × String)
deriving Repr, DecidableEq

/-- A parsed property file: the `version` marker plus the ordered sections
(one per plural resource type). -/
structure PropertyFileDict where
  version : Nat
  sections : List (String × List ResourceRecord)
deriving Repr, DecidableEq

/-- `_SUPPORTED_RESOURCE_TYPES` from src/dbt_invoke/properties.py. -/
def _SUPPORTED_RESOURCE_TYPES : List (String × String) :=
  [("model", "models"), ("seed", "seeds"),
   ("snapshot", "snapshots"), ("analysis", "analyses")]

/-- `_SUPPORTED_RESOURCE_TYPES[resource_type]` /
`_SUPPORTED_RESOURCE_TYPES.get(resource_type)`: plural form of a resource
type, none when the type is unsupported. -/
def pluralOf (resource_type : String) : Option String :=
  (_SUPPORTED_RESOURCE_TYPES.filter (fun p => p.1 == resource_type)).head?.map (·.2)

/-- Look up a section by key: Python `property_file_dict[k]` on a dict whose
keys are unique, modelled on the ordered association list. -/
def lookupSection (sections : List (String × List ResourceRecord)) (k : String) :
    Option (List ResourceRecord) :=
  match sections with
  | [] => none
  | (k', v) :: rest => if k' == k then some v else lookupSection rest k

/-- Replace the value stored under key `k` (first occurrence), leaving every
other entry untouched: Python `d[k] = f(d[k])` on a dict. -/
def updateSection (sections : List (String × List ResourceRecord)) (k : String)
    (f : List ResourceRecord → List ResourceRecord) :
    List (String × List ResourceRecord) :=
  match sections with
  | [] => []
  | (k', v) :: rest =>
    if k' == k then (k', f v) :: rest else (k', v) :: updateSection rest k f

/-- Apply `f` to element 0 of a list, as Python index-0 assignment does. -/
def updateHead (f : ResourceRecord → ResourceRecord) :
    List ResourceRecord → List ResourceRecord
  | [] => []
  | r :: rest => f r :: rest

/-! ## Reconciliation engine (src/dbt_invoke/properties.py lines 830-903) -/

/-- `_get_property_column` (properties.py line 895): fresh column entry
`{name: column_name, description: ""}`. -/
def _get_property_column (column_name : String) : PropColumn :=
  { name := column_name, description := "", extras := [] }

/-- `_get_property_header` (properties.py line 875): a fresh one-resource
document `{version: 2, plural: [properties]}`; none models the KeyError on
an unsupported resource type. -/
def _get_property_header (resource : String) (resource_type : String)
    (properties : Option ResourceRecord) : Option PropertyFileDict :=
  (pluralOf resource_type).map (fun plural =>
    { version := 2,
      sections := [(plural,
        [properties.getD
          { name := resource, description := "", columns := [], extras := [] }])] })

/-- The dictionary comprehension `{item['name']: item for item in columns}`
followed by `.get(column)`: on duplicate names the later entry wins, so the
lookup returns the last entry bearing the name. -/
def columnLookup (column : String) (columns : List PropColumn) : Option PropColumn :=
  (columns.filter (fun item => item.name == column)).getLast?

/-- The rebuilt columns list (properties.py lines 864-871): iterate the
introspected names in order, reusing the existing entry when the name is
found, else a fresh entry. -/
def newColumns (columns_list : List String) (old : List PropColumn) : List PropColumn :=
  columns_list.map (fun column =>
    (columnLookup column old).getD (_get_property_column column))

/-- The document produced by a successful reconciliation: the starting
document with record 0 of the plural section given the rebuilt columns
(the in-place assignment `property_file_dict[plural][0]['columns'] = ...`). -/
def reconciled (d : PropertyFileDict) (plural : String) (cols : List PropColumn) :
    PropertyFileDict :=
  { d with
    sections := updateSection d.sections plural
        (updateHead (fun r => { r with columns := cols })) }

/-- Core of `_structure_property_file_dict` once the starting dictionary is
fixed: look up the plural section, take its record 0, rebuild that record's
columns from `columns_list` reusing existing entries by name.  Errors model
the Python KeyError / IndexError on missing section or empty section. -/
def reconcileWith (property_file_dict : PropertyFileDict) (resource_type : String)
    (columns_list : List String) : Except String PropertyFileDict :=
  match pluralOf resource_type with
  | none => .error "KeyError: unsupported resource type"
  | some resource_type_plural =>
    match lookupSection property_file_dict.sections resource_type_plural with
    | none => .error "KeyError: missing section"
    | some records =>
      match records.head? with
      | none => .error "IndexError: empty section"
      | some first =>
        .ok (reconciled property_file_dict resource_type_plural
          (newColumns columns_list first.columns))

/-- `_structure_property_file_dict` (properties.py line 830).  The argument
`existing` is the parsed content of the property file: `none` when the file
does not exist or parses to an empty/falsy structure (both take the
fresh-header branch), `some d` when it parses to a non-empty document. -/
def _structure_property_file_dict (existing : Option PropertyFileDict)
    (resource_name resource_type : String) (columns_list : List String) :
    Except String PropertyFileDict :=
  match existing with
  | some property_file_dict => reconcileWith property_file_dict resource_type columns_list
  | none =>
    match _get_property_header resource_name resource_type none with
    | none => .error "KeyError: unsupported resource type"
    | some header => reconcileWith header resource_type columns_list

/-- The columns of record 0 of the relevant section of the starting
dictionary: the data `_structure_property_file_dict` reads its existing
column entries from.  Empty when the file is absent. -/
def oldColumnsOf (existing : Option PropertyFileDict) (plural : String) :
    List PropColumn :=
  match existing with
  | none => []
  | some d =>
    match lookupSection d.sections plural with
    | none => []
    | some records =>
      match records.head? with
      | none => []
      | some first => first.columns

/-- Specification-level lookup of "the" column entry bearing a name: first
match; it agrees with the dict-comprehension lookup when names are unique. -/
def specColumn (column : String) (columns : List PropColumn) : Option PropColumn :=
  columns.find? (fun e => e.name == column)

/-- The dictionary `_structure_property_file_dict` starts from: the parsed
file when present and non-empty, else the fresh header. -/
def startDict (existing : Option PropertyFileDict) (resource_name plural : String) :
    PropertyFileDict :=
  match existing with
  | some d => d
  | none =>
    { version := 2,
      sections := [(plural,
        [{ name := resource_name, description := "", columns := [], extras := [] }])] }

/-- Record 0 of the relevant section of an existing document, none when the
document is absent. -/
def firstRecordOf (existing : Option PropertyFileDict) (plural : String) :
    Option ResourceRecord :=
  match existing with
  | none => none
  | some d => (lookupSection d.sections plural).bind List.head?

/-- Concrete existing document used to witness C1: a manually edited file
for resource `orders`. -/
def exC1doc : PropertyFileDict :=
  { version := 2,
    sections := [("models",
      [{ name := "orders", description := "The orders table",
         columns := [
           { name := "id", description := "primary key",
             extras := [("tests", "not_null")] },
           { name := "legacy", description := "old", extras := [] }],
         extras := [("meta", "x")] }])] }

/-- Reconciled form of `exC1doc` when introspection returns id, amount. -/
def exC1out : PropertyFileDict :=
  { version := 2,
    sections := [("models",
      [{ name := "orders", description := "The orders table",
         columns := [
           { name := "id", description := "primary key",
             extras := [("tests", "not_null")] },
           { name := "amount", description := "", extras := [] }],
         extras := [("meta", "x")] }])] }

/-- The sub-record of a given resource name inside a section of a document. -/
def recordNamed (d : PropertyFileDict) (plural resname : String) :
    Option ResourceRecord :=
  (lookupSection d.sections plural).bind (fun rs => rs.find? (·.name == resname))

/-- Legacy document describing two resources in one `models` section, with
the resource under reconciliation (`orders`) in position 1. -/
def exC7doc : PropertyFileDict :=
  { version := 2,
    sections := [("models",
      [{ name := "customers", description := "",
         columns := [{ name := "id", description := "customers id", extras := [] }],
         extras := [] },
       { name := "orders", description := "",
         columns := [{ name := "id", description := "orders id", extras := [] }],
         extras := [] }])] }

/-- Result of reconciling `orders` against `exC7doc` with introspected
columns x: the code rewrites record 0 (`customers`), not `orders`. -/
def exC7out : PropertyFileDict :=
  { version := 2,
    sections := [("models",
      [{ name := "customers", description := "",
         columns := [{ name := "x", description := "", extras := [] }],
         extras := [] },
       { name := "orders", description := "",
         columns := [{ name := "id", description := "orders id", extras := [] }],
         extras := [] }])] }

/-- `macro_exists` (src/dbt_invoke/internal/_utils.py lines 294-324).  The
probe run of `dbt_run_operation` is summarised by its outcome: `none` when
it raised no exception, `some exc` when it raised one with text `exc`.  The
second component collects what was logged. -/
def macro_exists (probe_exception : Option String) (mname : String) :
    Bool × List String :=
  match probe_exception with
  | none => (true, [])
  | some exc =>
    if ["runtime error", "not", "find", mname].all
        (fun s => containsSub (pyLowerChars exc.data) s.data)
    then (false, [])
    else (true, ["logged: " ++ exc])

/-- Gate at the top of `_create_all_property_files` (properties.py lines
577-579): the one-time installation flow runs only when `macro_exists`
returns False. -/
def installFlowTriggered (probe_exception : Option String) (mname : String) : Bool :=
  !(macro_exists probe_exception mname).1

/-- A Python value carried by a log-line message field: either a string or a
native list of strings. -/
inductive PyVal where
  | pstr (s : String)
  | plist (xs : List String)
deriving Repr, DecidableEq

/-- One parsed json log line of a dbt run-operation, keeping the keys
`_get_columns` inspects; a field is `none` when the key is absent. -/
structure LogLine where
  code : Option String
  msg : Option PyVal
  info_code : Option String
  info_msg : Option PyVal
  message : Option PyVal
deriving Repr, DecidableEq

/-- `x.get('code', x.get('info', dict()).get('code'))` from properties.py
lines 785-803. -/
def effectiveCode (x : LogLine) : Option String :=
  match x.code with
  | some c => some c
  | none => x.info_code

/-- `relevant_line.get('msg', relevant_line.get('info', dict()).get('msg'))`
from properties.py lines 809-812. -/
def msgOfRelevant (x : LogLine) : Option PyVal :=
  match x.msg with
  | some m => some m
  | none => x.info_msg

/-- The single-quote character, written by code point to keep the source
free of quote literals. -/
def pySquote : Char := Char.ofNat 39

/-- Drop leading blanks inside a list literal. -/
def skipSpaces (cs : List Char) : List Char :=
  cs.dropWhile (fun c => c == ' ')

/-- Read one quoted string item of a Python list literal (no escape
sequences, which dbt column names do not contain). -/
def parseQuoted (cs : List Char) : Option (String × List Char) :=
  match cs with
  | [] => none
  | q :: rest =>
    if q == pySquote || q == '"' then
      let content := rest.takeWhile (fun c => !(c == q))
      match rest.dropWhile (fun c => !(c == q)) with
      | q2 :: rest2 => if q2 == q then some (String.mk content, rest2) else none
      | [] => none
    else none

/-- Read the comma-separated items of a Python list literal body. -/
def parseItems (fuel : Nat) (cs : List Char) : Except String (List String) :=
  match fuel with
  | 0 => .error "ValueError: malformed node"
  | fuel' + 1 =>
    match skipSpaces cs with
    | [] => .ok []
    | c :: rest =>
      match parseQuoted (c :: rest) with
      | none => .error "ValueError: malformed node"
      | some (item, rem) =>
        match skipSpaces rem with
        | [] => .ok [item]
        | c2 :: rest2 =>
          if c2 == ',' then (parseItems fuel' rest2).map (fun xs => item :: xs)
          else .error "ValueError: malformed node"

/-- `ast.literal_eval` restricted to the shape the code feeds it: a
bracketed list literal of strings. -/
def ast_literal_eval_list (s : String) : Except String (List String) :=
  match s.data with
  | [] => .error "ValueError: malformed node"
  | c :: rest =>
    if c == '[' then
      match rest.reverse with
      | [] => .error "ValueError: malformed node"
      | last :: revInner =>
        if last == ']' then parseItems (s.data.length + 1) revInner.reverse
        else .error "ValueError: malformed node"
    else .error "ValueError: malformed node"

/-- Parsing core of `_get_columns` (properties.py lines 783-827), taking the
captured run-operation output lines (the external invocation of lines
743-781 is elided).  Filter for the M011 diagnostic in either known shape
and use the last match; otherwise fall back to the `message` key of the
last line after the first; finally decode a string-encoded list literal. -/
def _get_columns (result_lines : List LogLine) : Except String (Option PyVal) :=
  let relevant_lines := result_lines.filter
    (fun x => effectiveCode x == some "M011")
  let columnsE : Except String (Option PyVal) :=
    match relevant_lines.getLast? with
    | some relevant_line => .ok (msgOfRelevant relevant_line)
    | none =>
      match (result_lines.drop 1).getLast? with
      | none => .error "IndexError: list index out of range"
      | some lastLine => .ok lastLine.message
  match columnsE with
  | .error e => .error e
  | .ok columns =>
    let is_string_list :=
      match columns with
      | some (.pstr s) => s.startsWith "[" && s.endsWith "]"
      | _ => false
    if is_string_list then
      match columns with
      | some (.pstr s) => (ast_literal_eval_list s).map (fun xs => some (.plist xs))
      | _ => .ok columns
    else .ok columns

/-- Output lines with no M011 record in either shape and whose trailing line
carries no `message` key. -/
def exC4lines : List LogLine :=
  [{ code := none, msg := none, info_code := none, info_msg := none,
     message := none },
   { code := none, msg := none, info_code := none, info_msg := none,
     message := none }]

/-- Concatenate rendered fragments. -/
def strJoin : List String → String
  | [] => ""
  | a :: l => a ++ strJoin l

/-- Render the opaque extra fields of a record or column at an indent. -/
def serializeExtras (indent : String) (es : List (String × String)) : String :=
  strJoin (es.map (fun p => indent ++ p.1 ++ ": " ++ p.2 ++ "\n"))

/-- Render one column entry as `yaml.safe_dump(..., sort_keys=False)` does
inside a property file. -/
def serializeColumn (c : PropColumn) : String :=
  "      - name: " ++ c.name ++ "\n" ++
  "        description: " ++ c.description ++ "\n" ++
  serializeExtras "        " c.extras

/-- Render one resource record. -/
def serializeRecord (r : ResourceRecord) : String :=
  "  - name: " ++ r.name ++ "\n" ++
  "    description: " ++ r.description ++ "\n" ++
  "    columns:\n" ++
  strJoin (r.columns.map serializeColumn) ++
  serializeExtras "    " r.extras

/-- Render one section: the plural key line then its records. -/
def serializeSection (s : String × List ResourceRecord) : String :=
  s.1 ++ ":\n" ++ strJoin (s.2.map serializeRecord)

/-- Textual content `write_yaml` leaves in a property file: the version
marker line then the sections in order (`sort_keys=False` keeps insertion
order). -/
def serializeDoc (d : PropertyFileDict) : String :=
  "version: " ++ Nat.repr d.version ++ "\n" ++
  strJoin (d.sections.map serializeSection)

/-- The deletion test of migrate (properties.py line 446):
`read_text().strip().lower() == "version: 2"`. -/
def onlyVersionMarker (content : String) : Bool :=
  pyLowerChars (pyStripChars content.data) == "version: 2".data

/-! ## Migration transform (src/dbt_invoke/properties.py lines 363-456) -/

/-- One member of a migration group, as assembled into `migration_map`
(properties.py lines 350-361): `resource_type_plural` is
`_SUPPORTED_RESOURCE_TYPES.get(resource_type)` and may be absent. -/
structure MigResource where
  name : String
  resource_type : String
  resource_type_plural : Option String
  property_path : String
deriving Repr, DecidableEq

/-- One value of the `existing_properties` index (properties.py lines
376-385). -/
structure ExistingProps where
  resource_type_plural : String
  index : Nat
  properties : ResourceRecord
deriving Repr, DecidableEq

/-- Python dict lookup on an association list built by comprehension:
later entries overwrite earlier ones, so take the last match. -/
def pyDictGet {α : Type} (l : List (String × α)) (k : String) : Option α :=
  ((l.filter (fun p => p.1 == k)).getLast?).map (·.2)

/-- The `existing_properties` dict comprehension (properties.py lines
376-385): for every section whose key is a relevant plural type, index all
records by name, remembering section key and position. -/
def buildExistingProperties (doc : PropertyFileDict)
    (relevant : List (Option String)) : List (String × ExistingProps) :=
  doc.sections.foldl
    (fun acc s =>
      if some s.1 ∈ relevant then
        acc ++ s.2.enum.map (fun p =>
          (p.2.name, { resource_type_plural := s.1, index := p.1,
                       properties := p.2 }))
      else acc) []

/-- Parameter names accepted by `_utils.write_yaml`
(src/dbt_invoke/internal/_utils.py line 82): only `location` and `data`;
there is no `mode` parameter. -/
def write_yaml_params : List String := ["location", "data"]

/-- Python keyword-call semantics: passing a keyword argument the callee
does not accept raises TypeError before the body runs. -/
def callKwargs (accepted passed : List String) : Except String Unit :=
  if passed.all (fun k => accepted.contains k) then .ok ()
  else .error "TypeError: write_yaml() got an unexpected keyword argument"

/-- An in-memory file system: path to textual content. -/
def setFile (fs : List (String × String)) (path content : String) :
    List (String × String) :=
  match fs with
  | [] => [(path, content)]
  | (p, c) :: rest =>
    if p == path then (p, content) :: rest else (p, c) :: setFile rest path content

/-- Read a file, none when absent. -/
def getFile (fs : List (String × String)) (path : String) : Option String :=
  ((fs.filter (fun p => p.1 == path)).head?).map (·.2)

/-- Remove a file. -/
def removeFile (fs : List (String × String)) (path : String) :
    List (String × String) :=
  fs.filter (fun p => !(p.1 == path))

/-- The body of the try block for one group member (properties.py lines
401-415): read the resource's existing sub-record, build the one-resource
document around it, then call `_utils.write_yaml(path, dict, mode='x')`.
The keyword check mirrors Python: `write_yaml` has no `mode` parameter, so
the call raises TypeError before any file is opened. -/
def migrateWriteAttempt (fs : List (String × String)) (resource : MigResource)
    (existing_properties : List (String × ExistingProps)) :
    Except String (List (String × String) × Nat) := do
  let ep ← match pyDictGet existing_properties resource.name with
    | some ep => Except.ok ep
    | none => Except.error "KeyError: resource name"
  let header ← match _get_property_header resource.name resource.resource_type
      (some ep.properties) with
    | some h => Except.ok h
    | none => Except.error "KeyError: resource type"
  let _ ← callKwargs write_yaml_params ["location", "data", "mode"]
  Except.ok (setFile fs resource.property_path (serializeDoc header), ep.index)

/-- Bookkeeping of one group in flight. -/
structure MigrateState where
  fs : List (String × String)
  indices_to_remove : List (Option String × List Nat)
  failures : List String
deriving Repr, DecidableEq

/-- Append an index under a key of the `indices_to_remove` defaultdict. -/
def appendIndex (m : List (Option String × List Nat)) (k : Option String)
    (i : Nat) : List (Option String × List Nat) :=
  match m with
  | [] => [(k, [i])]
  | (k', v) :: rest =>
    if k' == k then (k', v ++ [i]) :: rest else (k', v) :: appendIndex rest k i

/-- Processing of one group member (properties.py lines 389-419): skip when
the properties already sit at the target path; otherwise try the write and
on success mark the source index for removal, on failure log and skip. -/
def migrateResourceStep (existing_property_path : String)
    (existing_properties : List (String × ExistingProps))
    (st : MigrateState) (resource : MigResource) : MigrateState :=
  if existing_property_path == resource.property_path then st
  else
    match migrateWriteAttempt st.fs resource existing_properties with
    | .ok res =>
      { st with
        fs := res.1,
        indices_to_remove :=
          appendIndex st.indices_to_remove resource.resource_type_plural res.2 }
    | .error _ =>
      { st with
        failures :=
          st.failures ++ ["Failed to create " ++ resource.property_path] }

/-- Insert into a descending-sorted list. -/
def sortDescInsert (i : Nat) : List Nat → List Nat
  | [] => [i]
  | j :: rest => if j ≤ i then i :: j :: rest else j :: sortDescInsert i rest

/-- `sorted(indices, reverse=True)`. -/
def sortDesc : List Nat → List Nat
  | [] => []
  | i :: rest => sortDescInsert i (sortDesc rest)

/-- Python `list.pop(i)`: remove position i, IndexError when out of range. -/
def pyPop (l : List ResourceRecord) (i : Nat) :
    Except String (List ResourceRecord) :=
  if i < l.length then .ok (l.take i ++ l.drop (i + 1))
  else .error "IndexError: pop index out of range"

/-- Pop each index in turn (the code feeds them sorted descending). -/
def popAll (l : List ResourceRecord) : List Nat → Except String (List ResourceRecord)
  | [] => .ok l
  | i :: rest => do popAll (← pyPop l i) rest

/-- Python `dict.pop(k)` on the section map. -/
def removeKey (sections : List (String × List ResourceRecord)) (k : String) :
    List (String × List ResourceRecord) :=
  sections.filter (fun p => !(p.1 == k))

/-- Cleanup of one marked plural type (properties.py lines 422-429): pop the
marked indices in descending order, then drop the section heading when no
resource remains.  A `none` key (unsupported type) or a missing section key
raises KeyError, uncaught in `migrate`. -/
def cleanupOne (sections : List (String × List ResourceRecord))
    (kOpt : Option String) (idxs : List Nat) :
    Except String (List (String × List ResourceRecord)) := do
  let k ← match kOpt with
    | some k => Except.ok k
    | none => Except.error "KeyError: None"
  let rs ← match lookupSection sections k with
    | some rs => Except.ok rs
    | none => Except.error "KeyError: section"
  let rs' ← popAll rs (sortDesc idxs)
  if rs'.length == 0 then Except.ok (removeKey sections k)
  else Except.ok (updateSection sections k (fun _ => rs'))

/-- The whole cleanup loop over `indices_to_remove.items()`. -/
def migrateCleanup (sections : List (String × List ResourceRecord)) :
    List (Option String × List Nat) →
    Except String (List (String × List ResourceRecord))
  | [] => .ok sections
  | (k, idxs) :: rest => do migrateCleanup (← cleanupOne sections k idxs) rest

/-- Cleanup-and-delete phase of one migration group (properties.py lines
420-456): remove the marked indices, rewrite the source document with the
remaining content, and delete it exactly when the rewritten text passes the
version-marker test.  Returns the remaining document and the deletion flag. -/
def migrateCleanupPhase (doc : PropertyFileDict)
    (indices_to_remove : List (Option String × List Nat)) :
    Except String (PropertyFileDict × Bool) := do
  let sections' ← migrateCleanup doc.sections indices_to_remove
  let doc' := { doc with sections := sections' }
  Except.ok (doc', onlyVersionMarker (serializeDoc doc'))

/-- Outcome of one whole migration group. -/
structure MigrateGroupResult where
  state : MigrateState
  finalDoc : PropertyFileDict
  deleted : Bool
  fs : List (String × String)
deriving Repr, DecidableEq

/-- One iteration of the `migration_map` loop (properties.py lines 363-456)
over an already parsed source document: index the existing records, process
every group member, clean up the source, rewrite it, and delete it when only
the version marker remains. -/
def migrateGroup (doc : PropertyFileDict) (existing_property_path : String)
    (resource_list : List MigResource) (fs0 : List (String × String)) :
    Except String MigrateGroupResult := do
  let relevant := resource_list.map (·.resource_type_plural)
  let existing_properties := buildExistingProperties doc relevant
  let st := resource_list.foldl
    (migrateResourceStep existing_property_path existing_properties)
    { fs := fs0, indices_to_remove := [], failures := [] }
  let res ← migrateCleanupPhase doc st.indices_to_remove
  let fs1 := setFile st.fs existing_property_path (serializeDoc res.1)
  let fs2 := if res.2 then removeFile fs1 existing_property_path else fs1
  Except.ok { state := st, finalDoc := res.1, deleted := res.2, fs := fs2 }

/-- A legacy source document holding two resources, both selected for
migration to their own files. -/
def exC5doc : PropertyFileDict :=
  { version := 2,
    sections := [("models",
      [{ name := "orders", description := "d1",
         columns := [{ name := "id", description := "pk", extras := [] }],
         extras := [] },
       { name := "customers", description := "d2",
         columns := [{ name := "cid", description := "", extras := [] }],
         extras := [] }])] }

/-- The migration group of `exC5doc`: both target paths differ from the
source path and do not exist yet. -/
def exC5resources : List MigResource :=
  [{ name := "orders", resource_type := "model",
     resource_type_plural := some "models",
     property_path := "models/orders.yml" },
   { name := "customers", resource_type := "model",
     resource_type_plural := some "models",
     property_path := "models/customers.yml" }]

/-- Positional exclusion: the records whose position (counting from n) is
not marked. -/
def exAux (I : List Nat) (n : Nat) : List ResourceRecord → List ResourceRecord
  | [] => []
  | a :: l => if n ∈ I then exAux I (n + 1) l else a :: exAux I (n + 1) l

/-- The records remaining after removing the marked positions, in order. -/
def remainingRecords (idxs : List Nat) (rs : List ResourceRecord) :
    List ResourceRecord :=
  (rs.enum.filter (fun p => decide (p.1 ∉ idxs))).map Prod.snd

/-- The per-section cleanup transform as the specification states it: a
marked section keeps exactly its unmarked records (in order) and is dropped
when none remain; an unmarked section is untouched. -/
def cleanupEntry (marked : List (String × List Nat))
    (s : String × List ResourceRecord) : Option (String × List ResourceRecord) :=
  match (marked.find? (fun p => p.1 == s.1)).map Prod.snd with
  | none => some s
  | some idxs =>
    if (remainingRecords idxs s.2).length == 0 then none
    else some (s.1, remainingRecords idxs s.2)

/-- The whole-document cleanup transform as the specification states it. -/
def cleanupSpec (sections : List (String × List ResourceRecord))
    (marked : List (String × List Nat)) : List (String × List ResourceRecord) :=
  sections.filterMap (cleanupEntry marked)

/-! ## Build coordinator (src/dbt_invoke/properties.py lines 555-641) -/

/-- The progress fragment `Resource {index} of {total}, {location}`. -/
def progressMsg (index total : Nat) (loc : String) : String :=
  "Resource " ++ Nat.repr index ++ " of " ++ Nat.repr total ++ ", " ++ loc

/-- The stored exception message of a failed resource: the progress
fragment followed by the formatted traceback. -/
def tracebackMsg (idx total : Nat) (loc e : String) : String :=
  progressMsg (idx + 1) total loc ++ "\n" ++ e

/-- Did the resource submitted at index idx succeed (raise no exception)? -/
def succP (resources : List (String × Option String)) (idx : Nat) : Bool :=
  match resources.get? idx with
  | some (_, none) => true
  | _ => false

/-- Did the resource submitted at index idx fail? -/
def failP (resources : List (String × Option String)) (idx : Nat) : Bool :=
  match resources.get? idx with
  | some (_, some _) => true
  | _ => false

/-- The exception-message entry stored for a submission index, keyed the
way `futures[future]['exception_message']` is. -/
def storedOf (resources : List (String × Option String)) (idx : Nat) :
    Option (Nat × String) :=
  match resources.get? idx with
  | some (loc, some e) => some (idx, tracebackMsg idx resources.length loc e)
  | _ => none

/-- The completion-time log event of a submission index. -/
def eventOf (resources : List (String × Option String)) (idx : Nat) :
    Option String :=
  match resources.get? idx with
  | some (loc, none) =>
    some ("[SUCCESS] " ++ progressMsg (idx + 1) resources.length loc)
  | some (loc, some _) =>
    some ("[FAILURE] " ++ progressMsg (idx + 1) resources.length loc)
  | none => none

/-- Mutable bookkeeping of the `as_completed` loop. -/
structure CoordState where
  successes : Nat
  failures : Nat
  stored : List (Nat × String)
  events : List String
deriving Repr, DecidableEq

/-- One iteration of the `as_completed` loop (properties.py lines 598-619):
count the outcome, log the completion event, and for a failure store the
traceback under the submission index. -/
def coordStep (resources : List (String × Option String))
    (st : CoordState) (idx : Nat) : CoordState :=
  match resources.get? idx with
  | none => st
  | some (loc, none) =>
    { st with
      successes := st.successes + 1,
      events := st.events ++
        ["[SUCCESS] " ++ progressMsg (idx + 1) resources.length loc] }
  | some (loc, some e) =>
    { st with
      failures := st.failures + 1,
      stored := st.stored ++ [(idx, tracebackMsg idx resources.length loc e)],
      events := st.events ++
        ["[FAILURE] " ++ progressMsg (idx + 1) resources.length loc] }

/-- Reading of one stored exception message, first match (submission
indices are unique). -/
def lookupStored (stored : List (Nat × String)) (i : Nat) : Option String :=
  (stored.find? (fun p => p.1 == i)).map (·.2)

/-- Outcome of one coordinator run. -/
structure CoordResult where
  successes : Nat
  failures : Nat
  events : List String
  tracebacks : List String
  summaryTotal : Nat
deriving Repr, DecidableEq

/-- `_create_all_property_files` (properties.py lines 555-641) with the
per-resource work summarised by its outcome: `resources` lists, in
submission order, each resource's location and the exception it raised (or
none); `completion` is the order in which the thread pool completes them.
After the pool drains, the tracebacks of all failures are re-collected by
iterating the futures dict in submission order (lines 620-634), and the
summary line reports total, successes and failures (lines 635-641). -/
def _create_all_property_files (resources : List (String × Option String))
    (completion : List Nat) : CoordResult :=
  let st := completion.foldl (coordStep resources)
    { successes := 0, failures := 0, stored := [], events := [] }
  let tracebacks :=
    if st.failures ≠ 0 then
      (List.range resources.length).filterMap (fun i => lookupStored st.stored i)
    else []
  { successes := st.successes, failures := st.failures, events := st.events,
    tracebacks := tracebacks, summaryTotal := st.successes + st.failures }

/-- The tracebacks of all failed resources in original submission order. -/
def submissionTracebacks (resources : List (String × Option String)) :
    List String :=
  (List.range resources.length).filterMap
    (fun i => (storedOf resources i).map Prod.snd)

/-- Three submitted resources, one succeeding and two failing. -/
def exC8 : List (String × Option String) :=
  [("models/a.sql", none), ("models/b.sql", some "boom"),
   ("models/c.sql", some "bang")]

/-! ## Fill engine

Modelled from the spec: no `fill` task exists under src/ (the CLI lists it,
but src/dbt_invoke/properties.py defines only update, delete, echo-macro and
migrate), so the Fill Engine of specification section 4.4 is modelled from
the specification's words. -/

/-- Modelled from the spec: record one contributing resource under one
description option of one column name. -/
def addOpt (opts : List (String × List String)) (desc res : String) :
    List (String × List String) :=
  match opts with
  | [] => [(desc, [res])]
  | (d, rs) :: rest =>
    if d == desc then (d, rs ++ [res]) :: rest
    else (d, rs) :: addOpt rest desc res

/-- Modelled from the spec: record `description -> append(resource_name)`
under a column name. -/
def addCollected (m : List (String × List (String × List String)))
    (col desc res : String) : List (String × List (String × List String)) :=
  match m with
  | [] => [(col, [(desc, [res])])]
  | (c, opts) :: rest =>
    if c == col then (c, addOpt opts desc res) :: rest
    else (c, opts) :: addCollected rest col desc res

/-- Modelled from the spec: the collect pass walks every source resource
and every column already bearing a non-empty description. -/
def collectPass (sources : List (String × List (String × String))) :
    List (String × List (String × List String)) :=
  sources.foldl
    (fun m src => src.2.foldl
      (fun m2 col =>
        if col.2 == "" then m2 else addCollected m2 col.1 col.2 src.1) m) []

/-- The recorded description options of one column name. -/
def collectedFor (m : List (String × List (String × List String)))
    (col : String) : List (String × List String) :=
  (((m.filter (fun p => p.1 == col)).head?).map (·.2)).getD []

/-- Modelled from the spec: one presented option, annotated with a
representative contributing resource and a count of "and N more". -/
def renderOption (opt : String × List String) : String :=
  opt.1 ++ " (from " ++ (opt.2.head?.getD "?") ++
    (if opt.2.length ≤ 1 then ""
     else " and " ++ Nat.repr (opt.2.length - 1) ++ " more") ++ ")"

/-- Digit value of a character. -/
def digitVal (c : Char) : Option Nat :=
  if c.isDigit then some (c.toNat - 48) else none

/-- Executable decimal reading of a user answer. -/
def natFromChars (cs : List Char) : Option Nat :=
  match cs with
  | [] => none
  | _ => cs.foldl
      (fun acc c =>
        match acc, digitVal c with
        | some n, some d => some (n * 10 + d)
        | _, _ => none)
      (some 0)

/-- Modelled from the spec: a user answer is valid when it is an option
index in range or the explicit skip answer. -/
def parseChoice (inp : String) (n : Nat) : Option (Option Nat) :=
  if inp == "s" then some none
  else
    match natFromChars inp.data with
    | some i => if i < n then some (some i) else none
    | none => none

/-- Modelled from the spec: keep re-prompting while the answer is invalid;
stops at the first valid index or explicit skip. -/
def chooseLoop (options : List (String × List String)) :
    List String → Option (Option Nat)
  | [] => none
  | inp :: rest =>
    match parseChoice inp options.length with
    | some c => some c
    | none => chooseLoop options rest

/-- Modelled from the spec: the apply pass for one target column, given
the collect-pass output, the column's current description and the stream of
user answers.  Returns the resulting description and the presented
prompts. -/
def applyColumn (m : List (String × List (String × List String)))
    (colName currentDesc : String) (inputs : List String) :
    String × List String :=
  if currentDesc == "" then
    match collectedFor m colName with
    | [] => (currentDesc, [])
    | [opt] => (opt.1, [])
    | opts =>
      let prompts := opts.map renderOption
      match chooseLoop opts inputs with
      | some (some i) => (((opts.get? i).map (·.1)).getD currentDesc, prompts)
      | some none => (currentDesc, prompts)
      | none => (currentDesc, prompts)
  else (currentDesc, [])

/-! ## Theorems -/

lemma columnLookup_name {c : String} {cols : List PropColumn} {e : PropColumn}
    (h : columnLookup c cols = some e) : e.name = c := by
  have hmem := List.mem_of_mem_getLast? h
  have := List.mem_filter.mp hmem
  simpa using this.2

lemma filter_name_eq_of_nodup {cols : List PropColumn}
    (hnodup : (cols.map (·.name)).Nodup) (c : String) :
    cols.filter (fun e => e.name == c) =
      match cols.find? (fun e => e.name == c) with
      | some e => [e]
      | none => [] := by
  induction cols with
  | nil => simp [List.find?]
  | cons h t ih =>
    simp only [List.map_cons, List.nodup_cons] at hnodup
    rw [List.filter_cons, List.find?_cons]
    by_cases hc : h.name = c
    · have hrest : t.filter (fun e => e.name == c) = [] := by
        rw [List.filter_eq_nil_iff]
        intro a ha hac
        exact hnodup.1 (by
          rw [hc, ← (by simpa using hac : a.name = c)]
          exact List.mem_map_of_mem (·.name) ha)
      simp [hc, hrest]
    · have hbeq : (h.name == c) = false := by simpa using hc
      rw [hbeq]
      simpa using ih hnodup.2

lemma columnLookup_eq_specColumn {cols : List PropColumn}
    (hnodup : (cols.map (·.name)).Nodup) (c : String) :
    columnLookup c cols = specColumn c cols := by
  unfold columnLookup specColumn
  rw [filter_name_eq_of_nodup hnodup c]
  cases cols.find? (fun e => e.name == c) <;> simp

lemma entry_name (old : List PropColumn) (c : String) :
    ((columnLookup c old).getD (_get_property_column c)).name = c := by
  cases hcl : columnLookup c old with
  | none => simp [_get_property_column]
  | some v => simpa using columnLookup_name hcl

lemma newColumns_names (columns_list : List String) (old : List PropColumn) :
    (newColumns columns_list old).map (·.name) = columns_list := by
  unfold newColumns
  rw [List.map_map]
  refine (List.map_congr_left ?_).trans (List.map_id _)
  intro c _
  exact entry_name old c

lemma getLast?_filter_eq_self {C : List String} {c : String} (h : c ∈ C) :
    (C.filter (fun x => x == c)).getLast? = some c := by
  have hne : C.filter (fun x => x == c) ≠ [] := by
    intro hnil
    rw [List.filter_eq_nil_iff] at hnil
    exact hnil c h (by simp)
  obtain ⟨x, hx⟩ := Option.isSome_iff_exists.mp (List.getLast?_isSome.mpr hne)
  have hxmem := List.mem_of_mem_getLast? hx
  have hxc : x = c := by simpa using (List.mem_filter.mp hxmem).2
  rw [hx, hxc]

lemma columnLookup_map_of_name {g : String → PropColumn}
    (hg : ∀ c, (g c).name = c) (C : List String) (c : String) :
    columnLookup c (C.map g) = if c ∈ C then some (g c) else none := by
  unfold columnLookup
  rw [List.filter_map]
  have hpred : (C.filter ((fun e => e.name == c) ∘ g)) = C.filter (fun x => x == c) := by
    apply List.filter_congr
    intro x _
    simp [hg x]
  rw [hpred, List.getLast?_map]
  by_cases hc : c ∈ C
  · rw [getLast?_filter_eq_self hc]
    simp [hc]
  · have hnil : C.filter (fun x => x == c) = [] := by
      rw [List.filter_eq_nil_iff]
      intro a ha hac
      exact hc ((by simpa using hac : a = c) ▸ ha)
    rw [hnil]
    simp [hc]

lemma columnLookup_newColumns (columns_list : List String) (old : List PropColumn)
    (c : String) :
    columnLookup c (newColumns columns_list old) =
      if c ∈ columns_list
      then some ((columnLookup c old).getD (_get_property_column c))
      else none :=
  columnLookup_map_of_name (fun c => entry_name old c) columns_list c

lemma newColumns_idem (columns_list : List String) (old : List PropColumn) :
    newColumns columns_list (newColumns columns_list old) =
      newColumns columns_list old := by
  unfold newColumns
  apply List.map_congr_left
  intro c hc
  rw [show List.map
      (fun column => (columnLookup column old).getD (_get_property_column column))
      columns_list = newColumns columns_list old from rfl]
  rw [columnLookup_newColumns, if_pos hc]
  rfl

lemma lookupSection_updateSection_self {sections : List (String × List ResourceRecord)}
    {k : String} {v : List ResourceRecord}
    (h : lookupSection sections k = some v) (f : List ResourceRecord → List ResourceRecord) :
    lookupSection (updateSection sections k f) k = some (f v) := by
  induction sections with
  | nil => simp [lookupSection] at h
  | cons p rest ih =>
    obtain ⟨k', v'⟩ := p
    by_cases hk : k' = k
    · simp_all [lookupSection, updateSection, hk]
    · have hbeq : (k' == k) = false := by simpa using hk
      simp only [lookupSection, updateSection, hbeq] at h ⊢
      simp only [Bool.false_eq_true, if_false]
      exact ih h

lemma lookupSection_updateSection_ne {sections : List (String × List ResourceRecord)}
    {k k' : String} (h : k' ≠ k) (f : List ResourceRecord → List ResourceRecord) :
    lookupSection (updateSection sections k f) k' = lookupSection sections k' := by
  induction sections with
  | nil => simp [lookupSection, updateSection]
  | cons p rest ih =>
    obtain ⟨k0, v0⟩ := p
    by_cases hk : k0 = k
    · subst hk
      have hne : k0 ≠ k' := fun hh => h hh.symm
      simp [lookupSection, updateSection, hne]
    · have hbeq : (k0 == k) = false := by simpa using hk
      simp only [updateSection, hbeq, Bool.false_eq_true, if_false, lookupSection]
      rw [ih]

lemma updateSection_keys (sections : List (String × List ResourceRecord))
    (k : String) (f : List ResourceRecord → List ResourceRecord) :
    (updateSection sections k f).map Prod.fst = sections.map Prod.fst := by
  induction sections with
  | nil => rfl
  | cons p rest ih =>
    obtain ⟨k0, v0⟩ := p
    by_cases hk : k0 = k
    · simp [updateSection, hk]
    · have hbeq : (k0 == k) = false := by simpa using hk
      simp [updateSection, hbeq, ih]

lemma updateSection_updateSection (sections : List (String × List ResourceRecord))
    (k : String) (f g : List ResourceRecord → List ResourceRecord) :
    updateSection (updateSection sections k f) k g =
      updateSection sections k (fun v => g (f v)) := by
  induction sections with
  | nil => rfl
  | cons p rest ih =>
    obtain ⟨k0, v0⟩ := p
    by_cases hk : k0 = k
    · simp [updateSection, hk]
    · have hbeq : (k0 == k) = false := by simpa using hk
      simp [updateSection, hbeq, ih]

lemma updateHead_head? (f : ResourceRecord → ResourceRecord)
    (l : List ResourceRecord) : (updateHead f l).head? = l.head?.map f := by
  cases l <;> rfl

lemma updateHead_updateHead (f g : ResourceRecord → ResourceRecord)
    (l : List ResourceRecord) :
    updateHead g (updateHead f l) = updateHead (fun r => g (f r)) l := by
  cases l <;> rfl

lemma updateHead_congr {f g : ResourceRecord → ResourceRecord}
    (h : ∀ r, f r = g r) (l : List ResourceRecord) :
    updateHead f l = updateHead g l := by
  cases l with
  | nil => rfl
  | cons r rest => simp [updateHead, h r]

/-- Shape of a successful run of `reconcileWith`: it names the plural
section, the section records, the first record, and gives the produced
document explicitly. -/
lemma reconcileWith_ok {d : PropertyFileDict} {resource_type : String}
    {columns_list : List String} {doc' : PropertyFileDict}
    (h : reconcileWith d resource_type columns_list = .ok doc') :
    ∃ plural records first,
      pluralOf resource_type = some plural ∧
      lookupSection d.sections plural = some records ∧
      records.head? = some first ∧
      doc' = reconciled d plural (newColumns columns_list first.columns) := by
  unfold reconcileWith at h
  split at h
  · exact absurd h (by simp)
  rename_i plural2 hp
  split at h
  · exact absurd h (by simp)
  rename_i records hs
  split at h
  · exact absurd h (by simp)
  rename_i first hf
  refine ⟨plural2, records, first, hp, hs, hf, ?_⟩
  simp only [Except.ok.injEq] at h
  rw [← h]

lemma structure_property_ok {existing : Option PropertyFileDict}
    {resource_name resource_type : String} {columns_list : List String}
    {doc' : PropertyFileDict} {plural : String}
    (h : _structure_property_file_dict existing resource_name resource_type columns_list
      = .ok doc')
    (hp : pluralOf resource_type = some plural) :
    ∃ records first,
      lookupSection (startDict existing resource_name plural).sections plural
        = some records ∧
      records.head? = some first ∧
      first.columns = oldColumnsOf existing plural ∧
      (existing = none → first.name = resource_name) ∧
      doc' = reconciled (startDict existing resource_name plural) plural
        (newColumns columns_list (oldColumnsOf existing plural)) := by
  cases existing with
  | some d =>
    simp only [_structure_property_file_dict] at h
    obtain ⟨plural2, records, first, hp2, hs, hf, hdoc⟩ := reconcileWith_ok h
    rw [hp] at hp2
    injection hp2 with hp2
    subst hp2
    refine ⟨records, first, hs, hf, ?_, by simp, ?_⟩
    · simp only [oldColumnsOf, hs, hf]
    · rw [hdoc]
      simp only [oldColumnsOf, hs, hf]
      rfl
  | none =>
    simp only [_structure_property_file_dict, _get_property_header, hp,
      Option.map_some'] at h
    obtain ⟨plural2, records, first, hp2, hs, hf, hdoc⟩ := reconcileWith_ok h
    rw [hp] at hp2
    injection hp2 with hp2
    subst hp2
    have hrec : records =
        [{ name := resource_name, description := "", columns := [], extras := [] }] := by
      simp only [lookupSection, beq_self_eq_true, if_true] at hs
      exact (Option.some.inj hs).symm
    subst hrec
    have hfst : first =
        { name := resource_name, description := "", columns := [], extras := [] } := by
      simpa using hf.symm
    subst hfst
    refine ⟨[{ name := resource_name, description := "", columns := [], extras := [] }],
      { name := resource_name, description := "", columns := [], extras := [] },
      ?_, rfl, rfl, fun _ => rfl, ?_⟩
    · simp [startDict, lookupSection]
    · rw [hdoc]
      rfl

lemma specColumn_self {cols : List PropColumn} {e : PropColumn}
    (hnodup : (cols.map (·.name)).Nodup) (he : e ∈ cols) :
    specColumn e.name cols = some e := by
  induction cols with
  | nil => cases he
  | cons h t ih =>
    simp only [List.map_cons, List.nodup_cons] at hnodup
    unfold specColumn at ih ⊢
    rw [List.find?_cons]
    by_cases hname : h.name = e.name
    · have : h = e := by
        rcases List.mem_cons.mp he with he0 | het
        · exact he0.symm
        · exact absurd (hname ▸ List.mem_map_of_mem (·.name) het) hnodup.1
      simp [this]
    · have hbeq : (h.name == e.name) = false := by simpa using hname
      rw [hbeq]
      rcases List.mem_cons.mp he with he0 | het
      · exact absurd (he0 ▸ rfl) (he0 ▸ hname)
      · exact ih hnodup.2 het

lemma columnLookup_self {cols : List PropColumn} {e : PropColumn}
    (hnodup : (cols.map (·.name)).Nodup) (he : e ∈ cols) :
    columnLookup e.name cols = some e := by
  rw [columnLookup_eq_specColumn hnodup]
  exact specColumn_self hnodup he

lemma structure_property_ok_plural {existing : Option PropertyFileDict}
    {resource_name resource_type : String} {columns_list : List String}
    {doc' : PropertyFileDict}
    (h : _structure_property_file_dict existing resource_name resource_type columns_list
      = .ok doc') :
    ∃ plural, pluralOf resource_type = some plural := by
  cases hp : pluralOf resource_type with
  | some plural => exact ⟨plural, rfl⟩
  | none =>
    exfalso
    cases existing with
    | some d =>
      simp only [_structure_property_file_dict, reconcileWith, hp] at h
      exact Except.noConfusion h
    | none =>
      simp only [_structure_property_file_dict, _get_property_header, hp,
        Option.map_none'] at h
      exact Except.noConfusion h

/-- C1: for every introspected column list and every resource with an
existing (or absent) property document, the reconciled document's columns
list has exactly the introspected names in order; the entry at position i is
the pre-existing column entry with that name (reused whole) when one exists
in the resource's section record, and the fresh entry with empty description
otherwise. -/
theorem C1_column_set_fidelity
    (existing : Option PropertyFileDict) (resource_name resource_type : String)
    (columns_list : List String) (doc' : PropertyFileDict) (plural : String)
    (hok : _structure_property_file_dict existing resource_name resource_type
      columns_list = .ok doc')
    (hplural : pluralOf resource_type = some plural)
    (hnodup : ((oldColumnsOf existing plural).map (·.name)).Nodup)
    (hname : (firstRecordOf existing plural).all
      (fun r => r.name == resource_name) = true) :
    ∃ records first,
      lookupSection doc'.sections plural = some records ∧
      records.head? = some first ∧
      first.name = resource_name ∧
      first.columns.map (·.name) = columns_list ∧
      first.columns = columns_list.map (fun c =>
        (specColumn c (oldColumnsOf existing plural)).getD (_get_property_column c)) := by
  obtain ⟨records, first, hs, hf, hcols, hnone, hdoc⟩ :=
    structure_property_ok hok hplural
  subst hdoc
  refine ⟨updateHead (fun r =>
      { r with columns := newColumns columns_list (oldColumnsOf existing plural) })
      records,
    { first with columns := newColumns columns_list (oldColumnsOf existing plural) },
    lookupSection_updateSection_self hs _, ?_, ?_, ?_, ?_⟩
  · rw [updateHead_head?, hf, Option.map_some']
  · cases existing with
    | none => exact hnone rfl
    | some d =>
      have hmem : firstRecordOf (some d) plural = some first := by
        simp only [firstRecordOf, startDict] at hs ⊢
        rw [hs]
        exact hf
      rw [hmem] at hname
      simpa using hname
  · exact newColumns_names columns_list (oldColumnsOf existing plural)
  · show newColumns columns_list (oldColumnsOf existing plural) = _
    unfold newColumns
    apply List.map_congr_left
    intro c _
    rw [columnLookup_eq_specColumn hnodup]

/-- Witness for C1 at a concrete input. -/
theorem C1_column_set_fidelity_witness :
    _structure_property_file_dict (some exC1doc) "orders" "model" ["id", "amount"]
      = .ok exC1out ∧
    ∃ records first,
      lookupSection exC1out.sections "models" = some records ∧
      records.head? = some first ∧
      first.name = "orders" ∧
      first.columns.map (·.name) = ["id", "amount"] ∧
      first.columns = ["id", "amount"].map (fun c =>
        (specColumn c (oldColumnsOf (some exC1doc) "models")).getD
          (_get_property_column c)) :=
  ⟨rfl,
    C1_column_set_fidelity (some exC1doc) "orders" "model" ["id", "amount"]
      exC1out "models" rfl (by decide) (by decide) (by decide)⟩

/-- C2: reconciliation over an existing document leaves the resource-level
fields (description and any other field) unchanged, leaves every other
section and every later record unchanged, and every column whose name is
still introspected keeps its whole pre-existing entry verbatim. -/
theorem C2_preservation
    (d : PropertyFileDict) (resource_name resource_type : String)
    (columns_list : List String) (doc' : PropertyFileDict) (plural : String)
    (hok : _structure_property_file_dict (some d) resource_name resource_type
      columns_list = .ok doc')
    (hplural : pluralOf resource_type = some plural)
    (hnodup : ((oldColumnsOf (some d) plural).map (·.name)).Nodup) :
    doc'.version = d.version ∧
    doc'.sections.map Prod.fst = d.sections.map Prod.fst ∧
    (∀ k, k ≠ plural → lookupSection doc'.sections k = lookupSection d.sections k) ∧
    ∃ r0 rest r0',
      lookupSection d.sections plural = some (r0 :: rest) ∧
      lookupSection doc'.sections plural = some (r0' :: rest) ∧
      r0'.name = r0.name ∧
      r0'.description = r0.description ∧
      r0'.extras = r0.extras ∧
      (∀ e ∈ r0.columns, e.name ∈ columns_list → e ∈ r0'.columns) := by
  obtain ⟨records, first, hs, hf, hcols, _, hdoc⟩ := structure_property_ok hok hplural
  simp only [startDict] at hs hdoc
  subst hdoc
  obtain ⟨rest, hrest⟩ : ∃ rest, records = first :: rest := by
    cases records with
    | nil => exact absurd hf (by simp)
    | cons a t =>
      refine ⟨t, ?_⟩
      have h1 : a = first := by simpa using hf
      rw [h1]
  subst hrest
  refine ⟨rfl, updateSection_keys _ _ _, fun k hk => lookupSection_updateSection_ne hk _,
    first, rest,
    { first with columns := newColumns columns_list (oldColumnsOf (some d) plural) },
    hs, ?_, rfl, rfl, rfl, ?_⟩
  · have := lookupSection_updateSection_self hs
      (updateHead (fun r =>
        { r with columns := newColumns columns_list (oldColumnsOf (some d) plural) }))
    simpa [updateHead] using this
  · intro e he hename
    have hlook : columnLookup e.name (oldColumnsOf (some d) plural) = some e :=
      columnLookup_self hnodup (hcols ▸ he)
    have : ({ name := e.name, description := e.description, extras := e.extras } :
        PropColumn) = e := rfl
    show e ∈ newColumns columns_list (oldColumnsOf (some d) plural)
    unfold newColumns
    refine List.mem_map.mpr ⟨e.name, hename, ?_⟩
    rw [hlook]
    rfl

/-- Witness for C2 at a concrete input: the description, the extra resource
field, and the extra column field of `exC1doc` all survive. -/
theorem C2_preservation_witness :
    _structure_property_file_dict (some exC1doc) "orders" "model" ["id", "amount"]
      = .ok exC1out ∧
    exC1out.version = exC1doc.version ∧
    exC1out.sections.map Prod.fst = exC1doc.sections.map Prod.fst ∧
    (∀ k, k ≠ "models" →
      lookupSection exC1out.sections k = lookupSection exC1doc.sections k) ∧
    ∃ r0 rest r0',
      lookupSection exC1doc.sections "models" = some (r0 :: rest) ∧
      lookupSection exC1out.sections "models" = some (r0' :: rest) ∧
      r0'.name = r0.name ∧
      r0'.description = r0.description ∧
      r0'.extras = r0.extras ∧
      (∀ e ∈ r0.columns, e.name ∈ ["id", "amount"] → e ∈ r0'.columns) := by
  have h := C2_preservation exC1doc "orders" "model" ["id", "amount"] exC1out
    "models" rfl rfl (by decide)
  exact ⟨rfl, h.1, h.2.1, h.2.2.1, h.2.2.2⟩

/-- C3: reconciliation is idempotent: feeding the document produced by a
first run back in as the existing document, with the same introspected
column list, reproduces exactly the same document, hence a byte-identical
persisted file. -/
theorem C3_idempotent
    (existing : Option PropertyFileDict) (resource_name resource_type : String)
    (columns_list : List String) (d1 : PropertyFileDict)
    (hok : _structure_property_file_dict existing resource_name resource_type
      columns_list = .ok d1) :
    _structure_property_file_dict (some d1) resource_name resource_type
      columns_list = .ok d1 := by
  obtain ⟨plural, hp⟩ := structure_property_ok_plural hok
  obtain ⟨records, first, hs, hf, hcols, _, hdoc⟩ := structure_property_ok hok hp
  subst hdoc
  have hs2 := lookupSection_updateSection_self hs
    (updateHead (fun r =>
      { r with columns := newColumns columns_list (oldColumnsOf existing plural) }))
  simp only [_structure_property_file_dict, reconcileWith, hp]
  rw [show (reconciled (startDict existing resource_name plural) plural
      (newColumns columns_list (oldColumnsOf existing plural))).sections
      = updateSection (startDict existing resource_name plural).sections plural
        (updateHead (fun r =>
          { r with columns := newColumns columns_list (oldColumnsOf existing plural) }))
    from rfl, hs2]
  dsimp only
  rw [updateHead_head?, hf, Option.map_some']
  dsimp only
  have hidem := newColumns_idem columns_list (oldColumnsOf existing plural)
  simp only [hidem]
  unfold reconciled
  rw [updateSection_updateSection]
  congr 1
  rw [show (fun v => updateHead (fun r =>
      { r with columns := newColumns columns_list (oldColumnsOf existing plural) })
      (updateHead (fun r =>
        { r with columns := newColumns columns_list (oldColumnsOf existing plural) }) v))
    = fun v => updateHead (fun r =>
      { r with columns := newColumns columns_list (oldColumnsOf existing plural) }) v
    from ?_]
  funext v
  rw [updateHead_updateHead]

/-- Witness for C3 at a concrete input: reconciling the already reconciled
document reproduces it exactly. -/
theorem C3_idempotent_witness :
    _structure_property_file_dict (some exC1doc) "orders" "model" ["id", "amount"]
      = .ok exC1out ∧
    _structure_property_file_dict (some exC1out) "orders" "model" ["id", "amount"]
      = .ok exC1out :=
  ⟨rfl, C3_idempotent (some exC1doc) "orders" "model" ["id", "amount"] exC1out rfl⟩

/-- Counterexample to C7: on a legacy document holding several sub-records,
reconciliation for resource `orders` changes the sub-record of another
resource (`customers`, at index 0) and leaves the sub-record named `orders`
with its old columns, contradicting the claim that only the sub-record whose
name equals the resource under reconciliation is read and rewritten. -/
theorem C7_counterexample :
    _structure_property_file_dict (some exC7doc) "orders" "model" ["x"]
      = .ok exC7out ∧
    recordNamed exC7out "models" "customers" ≠ recordNamed exC7doc "models" "customers" ∧
    recordNamed exC7out "models" "orders" = recordNamed exC7doc "models" "orders" ∧
    (recordNamed exC7out "models" "orders").map (fun r => r.columns.map (·.name))
      = some ["id"] :=
  ⟨rfl, by decide, by decide, by decide⟩

/-- C7 amended: on an existing document, reconciliation reads existing
columns from, and rewrites the columns of, exactly the first sub-record
(index 0) of the relevant section, regardless of that record's name; every
later sub-record and every other section is left unchanged. -/
theorem C7_operates_on_first_record
    (d : PropertyFileDict) (resource_name resource_type : String)
    (columns_list : List String) (doc' : PropertyFileDict) (plural : String)
    (hok : _structure_property_file_dict (some d) resource_name resource_type
      columns_list = .ok doc')
    (hplural : pluralOf resource_type = some plural) :
    ∃ r0 rest,
      lookupSection d.sections plural = some (r0 :: rest) ∧
      lookupSection doc'.sections plural =
        some ({ r0 with columns := newColumns columns_list r0.columns } :: rest) ∧
      doc'.sections.map Prod.fst = d.sections.map Prod.fst ∧
      (∀ k, k ≠ plural → lookupSection doc'.sections k = lookupSection d.sections k) := by
  obtain ⟨records, first, hs, hf, hcols, _, hdoc⟩ := structure_property_ok hok hplural
  simp only [startDict] at hs hdoc
  subst hdoc
  obtain ⟨rest, hrest⟩ : ∃ rest, records = first :: rest := by
    cases records with
    | nil => exact absurd hf (by simp)
    | cons a t =>
      refine ⟨t, ?_⟩
      have h1 : a = first := by simpa using hf
      rw [h1]
  subst hrest
  refine ⟨first, rest, hs, ?_, updateSection_keys _ _ _,
    fun k hk => lookupSection_updateSection_ne hk _⟩
  rw [hcols]
  have := lookupSection_updateSection_self hs
    (updateHead (fun r =>
      { r with columns := newColumns columns_list (oldColumnsOf (some d) plural) }))
  simpa [reconciled, updateHead] using this

/-- Witness for the amended C7 at a concrete input. -/
theorem C7_operates_on_first_record_witness :
    _structure_property_file_dict (some exC7doc) "orders" "model" ["x"]
      = .ok exC7out ∧
    ∃ r0 rest,
      lookupSection exC7doc.sections "models" = some (r0 :: rest) ∧
      lookupSection exC7out.sections "models" =
        some ({ r0 with columns := newColumns ["x"] r0.columns } :: rest) ∧
      exC7out.sections.map Prod.fst = exC7doc.sections.map Prod.fst ∧
      (∀ k, k ≠ "models" →
        lookupSection exC7out.sections k = lookupSection exC7doc.sections k) :=
  ⟨rfl, C7_operates_on_first_record exC7doc "orders" "model" ["x"] exC7out "models"
    rfl rfl⟩

/-- C10: `macro_exists` returns False exactly when the probe raised an
exception whose lowercased text contains all of "runtime error", "not",
"find" and the macro name; any other exception is logged and still yields
True, so the installation flow is skipped for unrecognized probe failures. -/
theorem C10_macro_exists_classification (probe_exception : Option String)
    (mname : String) :
    ((macro_exists probe_exception mname).1 = false ↔
      ∃ exc, probe_exception = some exc ∧
        (["runtime error", "not", "find", mname].all
          (fun s => containsSub (pyLowerChars exc.data) s.data)) = true) ∧
    (∀ exc, probe_exception = some exc →
      (["runtime error", "not", "find", mname].all
        (fun s => containsSub (pyLowerChars exc.data) s.data)) = false →
      macro_exists probe_exception mname = (true, ["logged: " ++ exc]) ∧
      installFlowTriggered probe_exception mname = false) := by
  constructor
  · constructor
    · intro hfalse
      cases probe_exception with
      | none => simp [macro_exists] at hfalse
      | some exc =>
        refine ⟨exc, rfl, ?_⟩
        by_contra hnot
        simp only [macro_exists] at hfalse
        rw [if_neg (by simpa using hnot)] at hfalse
        exact absurd hfalse (by simp)
    · rintro ⟨exc, hp, hall⟩
      subst hp
      simp [macro_exists, hall]
  · intro exc hp hnotall
    subst hp
    constructor
    · simp [macro_exists, hnotall]
    · simp [installFlowTriggered, macro_exists, hnotall]

/-- Witness for C10: a connection failure is not recognized as a missing
macro, so the probe result is classified as "macro exists", the error is
logged, and the installation flow is skipped. -/
theorem C10_macro_exists_classification_witness :
    macro_exists (some "Database Error: could not connect") "_log_columns_list"
      = (true, ["logged: Database Error: could not connect"]) ∧
    installFlowTriggered (some "Database Error: could not connect")
      "_log_columns_list" = false :=
  (C10_macro_exists_classification (some "Database Error: could not connect")
    "_log_columns_list").2 "Database Error: could not connect" rfl (by decide)

/-- Counterexample to C4: an introspection output in which no candidate line
parses under either branch makes `_get_columns` return a null column list
silently; no ParseError (or any error naming the raw output) exists in the
code. -/
theorem C4_counterexample :
    exC4lines.filter (fun x => effectiveCode x == some "M011") = [] ∧
    (∀ l ∈ exC4lines.drop 1, l.message = none) ∧
    _get_columns exC4lines = .ok none :=
  ⟨by decide, by decide, rfl⟩

/-- C4 amended: when no M011 record exists in either shape, extraction falls
back to the last line after the first: if no such line exists it fails with
a bare IndexError (not a ParseError identifying the raw output), and if that
line lacks a `message` key it silently returns a null column list. -/
theorem C4_no_parse_error (result_lines : List LogLine)
    (hnoM011 : result_lines.filter (fun x => effectiveCode x == some "M011") = []) :
    (result_lines.drop 1 = [] →
      _get_columns result_lines = .error "IndexError: list index out of range") ∧
    (∀ lastLine, (result_lines.drop 1).getLast? = some lastLine →
      lastLine.message = none →
      _get_columns result_lines = .ok none) := by
  constructor
  · intro hdrop
    unfold _get_columns
    rw [hnoM011, hdrop]
    rfl
  · intro lastLine hlast hmsg
    unfold _get_columns
    rw [hnoM011]
    simp only [List.getLast?_nil]
    rw [hlast]
    dsimp only
    rw [hmsg]
    rfl

/-- Witness for the amended C4 at a concrete input: a one-line output with
no M011 record hits the bare IndexError branch. -/
theorem C4_no_parse_error_witness :
    ([{ code := none, msg := none, info_code := none, info_msg := none,
        message := none }] : List LogLine).filter
      (fun x => effectiveCode x == some "M011") = [] ∧
    _get_columns
      [{ code := none, msg := none, info_code := none, info_msg := none,
         message := none }]
      = .error "IndexError: list index out of range" :=
  ⟨by decide, (C4_no_parse_error _ (by decide)).1 rfl⟩

/-- C5 failing input: `migrate` passes `mode='x'` to `_utils.write_yaml`,
whose signature accepts only `location` and `data`, so every per-resource
write raises TypeError inside the try block; the resource is logged and
skipped, no target file is ever created, no index is marked for removal,
and the source document survives intact.  The claim (and the repository's
own migration tests) expect the one-resource documents to be written. -/
theorem C5_write_yaml_mode_code_bug :
    callKwargs write_yaml_params ["location", "data", "mode"]
      = .error "TypeError: write_yaml() got an unexpected keyword argument" ∧
    ∃ r, migrateGroup exC5doc "models/schema.yml" exC5resources
        [("models/schema.yml", serializeDoc exC5doc)] = .ok r ∧
      r.state.indices_to_remove = [] ∧
      r.state.failures = ["Failed to create models/orders.yml",
        "Failed to create models/customers.yml"] ∧
      getFile r.fs "models/orders.yml" = none ∧
      getFile r.fs "models/customers.yml" = none ∧
      r.finalDoc = exC5doc ∧
      r.deleted = false := by
  refine ⟨rfl, ⟨_, rfl, ?_, ?_, ?_, ?_, ?_, ?_⟩⟩ <;> decide

lemma exAux_enumFrom (I : List Nat) (l : List ResourceRecord) :
    ∀ n, exAux I n l = ((List.enumFrom n l).filter
      (fun p => decide (p.1 ∉ I))).map Prod.snd := by
  induction l with
  | nil => intro n; rfl
  | cons a t ih =>
    intro n
    by_cases hn : n ∈ I
    · simp [exAux, hn, List.enumFrom, ih (n + 1)]
    · simp [exAux, hn, List.enumFrom, ih (n + 1)]

lemma exAux_eq_remainingRecords (I : List Nat) (rs : List ResourceRecord) :
    exAux I 0 rs = remainingRecords I rs := by
  rw [remainingRecords, show rs.enum = rs.enumFrom 0 from rfl]
  exact exAux_enumFrom I rs 0

lemma exAux_high {I : List Nat} {l : List ResourceRecord} :
    ∀ n, (∀ j ∈ I, j < n) → exAux I n l = l := by
  induction l with
  | nil => intro n _; rfl
  | cons a t ih =>
    intro n hn
    have hmem : n ∉ I := fun hin => absurd (hn n hin) (lt_irrefl n)
    rw [exAux, if_neg hmem, ih (n + 1) (fun j hj => Nat.lt_succ_of_lt (hn j hj))]

lemma exAux_append (I : List Nat) (l1 l2 : List ResourceRecord) :
    ∀ n, exAux I n (l1 ++ l2) = exAux I n l1 ++ exAux I (n + l1.length) l2 := by
  induction l1 with
  | nil => intro n; simp [exAux]
  | cons a t ih =>
    intro n
    by_cases hn : n ∈ I
    · rw [List.cons_append, exAux, if_pos hn, exAux, if_pos hn, ih (n + 1)]
      simp [Nat.add_assoc, Nat.add_comm 1 t.length]
    · rw [List.cons_append, exAux, if_neg hn, exAux, if_neg hn, ih (n + 1)]
      simp [Nat.add_assoc, Nat.add_comm 1 t.length]

lemma exAux_drop_big {i : Nat} {I : List Nat} {l : List ResourceRecord} :
    ∀ n, n + l.length ≤ i → exAux (i :: I) n l = exAux I n l := by
  induction l with
  | nil => intro n _; rfl
  | cons a t ih =>
    intro n hle
    rw [List.length_cons] at hle
    have hni : n ≠ i := by omega
    have hmem : (n ∈ i :: I) ↔ (n ∈ I) := by
      simp [List.mem_cons, hni]
    have hrec := ih (n + 1) (by omega)
    by_cases hn : n ∈ I
    · rw [exAux, if_pos (hmem.mpr hn), exAux, if_pos hn, hrec]
    · rw [exAux, if_neg (fun hc => hn (hmem.mp hc)), exAux, if_neg hn, hrec]

lemma exAux_congr {I J : List Nat} (h : ∀ j, j ∈ I ↔ j ∈ J)
    (l : List ResourceRecord) : ∀ n, exAux I n l = exAux J n l := by
  induction l with
  | nil => intro n; rfl
  | cons a t ih =>
    intro n
    by_cases hn : n ∈ I
    · rw [exAux, if_pos hn, exAux, if_pos ((h n).mp hn), ih (n + 1)]
    · rw [exAux, if_neg hn, exAux, if_neg (fun hc => hn ((h n).mpr hc)), ih (n + 1)]

lemma exAux_pop {i : Nat} {rest : List Nat} {rs : List ResourceRecord}
    (hlt : ∀ j ∈ rest, j < i) (hi : i < rs.length) :
    exAux rest 0 (rs.take i ++ rs.drop (i + 1)) = exAux (i :: rest) 0 rs := by
  have htake : (rs.take i).length = i := by
    rw [List.length_take]
    omega
  have hsplit : rs = rs.take i ++ rs.get ⟨i, hi⟩ :: rs.drop (i + 1) := by
    conv_lhs => rw [← List.take_append_drop i rs]
    rw [List.drop_eq_getElem_cons hi]
    rfl
  rw [exAux_append]
  have h1 : exAux rest 0 (rs.take i) = exAux (i :: rest) 0 (rs.take i) := by
    rw [exAux_drop_big 0 (by omega)]
  have h2 : exAux rest (0 + (rs.take i).length) (rs.drop (i + 1))
      = rs.drop (i + 1) := by
    rw [htake, exAux_high (0 + i) (fun j hj => by have := hlt j hj; omega)]
  conv_rhs => rw [hsplit]
  rw [exAux_append]
  have h3 : exAux (i :: rest) (0 + (rs.take i).length)
      (rs.get ⟨i, hi⟩ :: rs.drop (i + 1)) = rs.drop (i + 1) := by
    rw [htake]
    have hzi : (0 + i) ∈ (i :: rest) := by simp
    rw [exAux, if_pos hzi, exAux_high (0 + i + 1) ?_]
    intro j hj
    rcases List.mem_cons.mp hj with h | h
    · omega
    · have := hlt j h
      omega
  rw [h1, h2, h3]

lemma popAll_desc {J : List Nat} :
    ∀ rs : List ResourceRecord, J.Pairwise (fun a b => b < a) →
    (∀ i ∈ J, i < rs.length) → popAll rs J = .ok (exAux J 0 rs) := by
  induction J with
  | nil => intro rs _ _; rw [popAll, exAux_high 0 (by simp)]
  | cons i rest ih =>
    intro rs hpw hbound
    have hi : i < rs.length := hbound i (by simp)
    have hlt : ∀ j ∈ rest, j < i := fun j hj =>
      (List.pairwise_cons.mp hpw).1 j hj
    rw [popAll]
    simp only [pyPop, if_pos hi, Except.bind]
    show popAll (rs.take i ++ rs.drop (i + 1)) rest
      = Except.ok (exAux (i :: rest) 0 rs)
    have hlen : (rs.take i ++ rs.drop (i + 1)).length = rs.length - 1 := by
      rw [List.length_append, List.length_take, List.length_drop]
      omega
    rw [ih (rs.take i ++ rs.drop (i + 1)) (List.pairwise_cons.mp hpw).2 ?hb]
    case hb =>
      intro j hj
      rw [hlen]
      have := hlt j hj
      omega
    rw [exAux_pop hlt hi]

lemma sortDescInsert_perm (i : Nat) (l : List Nat) :
    (sortDescInsert i l).Perm (i :: l) := by
  induction l with
  | nil => rfl
  | cons j rest ih =>
    rw [sortDescInsert]
    by_cases h : j ≤ i
    · rw [if_pos h]
    · rw [if_neg h]
      exact (ih.cons j).trans (List.Perm.swap i j rest)

lemma sortDesc_perm (l : List Nat) : (sortDesc l).Perm l := by
  induction l with
  | nil => rfl
  | cons i rest ih =>
    rw [sortDesc]
    exact (sortDescInsert_perm i (sortDesc rest)).trans (ih.cons i)

lemma sortDescInsert_sorted {i : Nat} {l : List Nat}
    (h : l.Pairwise (fun a b => b ≤ a)) :
    (sortDescInsert i l).Pairwise (fun a b => b ≤ a) := by
  induction l with
  | nil => simp [sortDescInsert]
  | cons j rest ih =>
    rw [sortDescInsert]
    rcases List.pairwise_cons.mp h with ⟨hj, hrest⟩
    by_cases hle : j ≤ i
    · rw [if_pos hle]
      refine List.pairwise_cons.mpr ⟨?_, h⟩
      intro b hb
      rcases List.mem_cons.mp hb with hb | hb
      · omega
      · have := hj b hb
        omega
    · rw [if_neg hle]
      refine List.pairwise_cons.mpr ⟨?_, ih hrest⟩
      intro b hb
      have hmem := (sortDescInsert_perm i rest).mem_iff.mp hb
      rcases List.mem_cons.mp hmem with hb2 | hb2
      · omega
      · exact hj b hb2

lemma sortDesc_sorted (l : List Nat) :
    (sortDesc l).Pairwise (fun a b => b ≤ a) := by
  induction l with
  | nil => simp [sortDesc]
  | cons i rest ih =>
    rw [sortDesc]
    exact sortDescInsert_sorted ih

lemma sortDesc_strict {l : List Nat} (hnd : l.Nodup) :
    (sortDesc l).Pairwise (fun a b => b < a) := by
  have hnd2 : (sortDesc l).Nodup := ((sortDesc_perm l).nodup_iff).mpr hnd
  have := List.Pairwise.and (sortDesc_sorted l) hnd2
  exact this.imp (fun h => by omega)

lemma popAll_sortDesc {I : List Nat} {rs : List ResourceRecord}
    (hnd : I.Nodup) (hb : ∀ i ∈ I, i < rs.length) :
    popAll rs (sortDesc I) = .ok (exAux I 0 rs) := by
  rw [popAll_desc rs (sortDesc_strict hnd)
    (fun i hi => hb i ((sortDesc_perm I).mem_iff.mp hi))]
  rw [exAux_congr (fun j => (sortDesc_perm I).mem_iff) rs 0]

lemma cleanupOne_ok {sections : List (String × List ResourceRecord)}
    {k : String} {idxs : List Nat} {rs : List ResourceRecord}
    (hlk : lookupSection sections k = some rs)
    (hnd : idxs.Nodup) (hb : ∀ i ∈ idxs, i < rs.length) :
    cleanupOne sections (some k) idxs =
      .ok (if (exAux idxs 0 rs).length == 0 then removeKey sections k
           else updateSection sections k (fun _ => exAux idxs 0 rs)) := by
  have hred : cleanupOne sections (some k) idxs = (do
      let rs ← match lookupSection sections k with
        | some rs => Except.ok rs
        | none => Except.error "KeyError: section"
      let rs' ← popAll rs (sortDesc idxs)
      if rs'.length == 0 then Except.ok (removeKey sections k)
      else Except.ok (updateSection sections k (fun _ => rs'))) := rfl
  rw [hred, hlk]
  show (do
      let rs' ← popAll rs (sortDesc idxs)
      if rs'.length == 0 then Except.ok (removeKey sections k)
      else Except.ok (updateSection sections k (fun _ => rs'))) = _
  rw [popAll_sortDesc hnd hb]
  show (if (exAux idxs 0 rs).length == 0 then Except.ok (removeKey sections k)
      else Except.ok (updateSection sections k (fun _ => exAux idxs 0 rs))) = _
  cases hc : ((exAux idxs 0 rs).length == 0) <;> simp [hc]

lemma lookupSection_removeKey_ne {sections : List (String × List ResourceRecord)}
    {k k' : String} (h : k' ≠ k) :
    lookupSection (removeKey sections k) k' = lookupSection sections k' := by
  induction sections with
  | nil => rfl
  | cons s rest ih =>
    obtain ⟨k0, v0⟩ := s
    by_cases hk : k0 = k
    · have hbeq : (k0 == k) = true := by simpa using hk
      have hne : (k0 == k') = false := by
        simpa using fun hh => h (hk ▸ hh).symm
      rw [removeKey, List.filter_cons, hbeq]
      simp only [Bool.not_true, Bool.false_eq_true, if_false]
      rw [lookupSection, hne]
      simp only [Bool.false_eq_true, if_false]
      rw [removeKey] at ih
      exact ih
    · have hbeq : (k0 == k) = false := by simpa using hk
      rw [removeKey, List.filter_cons, hbeq]
      simp only [Bool.not_false, if_pos]
      rw [lookupSection, lookupSection]
      by_cases hk' : k0 = k'
      · have hbeq' : (k0 == k') = true := by simpa using hk'
        rw [hbeq']
        simp
      · have hbeq' : (k0 == k') = false := by simpa using hk'
        rw [hbeq']
        simp only [Bool.false_eq_true, if_false]
        rw [removeKey] at ih
        exact ih

lemma removeKey_not_mem {sections : List (String × List ResourceRecord)}
    {k : String} (h : k ∉ sections.map Prod.fst) : removeKey sections k = sections := by
  induction sections with
  | nil => rfl
  | cons s rest ih =>
    simp only [List.map_cons, List.mem_cons] at h
    push_neg at h
    have hne : (s.1 == k) = false := by simpa using fun hh => h.1 hh.symm
    simp only [removeKey, List.filter_cons, hne, Bool.not_false, if_pos]
    rw [removeKey] at ih
    rw [ih h.2]

lemma removeKey_keys_nodup {sections : List (String × List ResourceRecord)}
    {k : String} (h : (sections.map Prod.fst).Nodup) :
    ((removeKey sections k).map Prod.fst).Nodup := by
  have hsub : List.Sublist (removeKey sections k) sections :=
    List.filter_sublist sections
  exact h.sublist (hsub.map Prod.fst)

lemma cleanupEntry_not_marked {marked : List (String × List Nat)}
    {s : String × List ResourceRecord} (h : ∀ p ∈ marked, p.1 ≠ s.1) :
    cleanupEntry marked s = some s := by
  unfold cleanupEntry
  rw [List.find?_eq_none.mpr (fun p hp => by simpa using h p hp)]
  rfl

lemma cleanupEntry_skip {k : String} {idxs : List Nat}
    {M : List (String × List Nat)} {s : String × List ResourceRecord}
    (h : s.1 ≠ k) : cleanupEntry ((k, idxs) :: M) s = cleanupEntry M s := by
  unfold cleanupEntry
  rw [List.find?_cons]
  have hbeq : (k == s.1) = false := by simpa using fun hh => h hh.symm
  simp only [hbeq]

lemma cleanupEntry_marked_head (k0 : String) (idxs : List Nat)
    (M : List (String × List Nat)) (rs : List ResourceRecord) :
    cleanupEntry ((k0, idxs) :: M) (k0, rs) =
      (if (remainingRecords idxs rs).length == 0 then none
       else some (k0, remainingRecords idxs rs)) := by
  unfold cleanupEntry
  rw [List.find?_cons]
  simp

lemma cleanupSpec_nil (sections : List (String × List ResourceRecord)) :
    cleanupSpec sections [] = sections := by
  unfold cleanupSpec
  induction sections with
  | nil => rfl
  | cons s rest ih =>
    rw [List.filterMap_cons, cleanupEntry_not_marked (by simp), ih]

lemma cleanupSpec_step {sections : List (String × List ResourceRecord)}
    {k : String} {idxs : List Nat} {M : List (String × List Nat)}
    {rs : List ResourceRecord}
    (hlk : lookupSection sections k = some rs)
    (hknodup : (sections.map Prod.fst).Nodup)
    (hkM : ∀ p ∈ M, p.1 ≠ k) :
    cleanupSpec sections ((k, idxs) :: M) =
      cleanupSpec (if (remainingRecords idxs rs).length == 0
                   then removeKey sections k
                   else updateSection sections k (fun _ => remainingRecords idxs rs))
        M := by
  unfold cleanupSpec
  induction sections with
  | nil => exact absurd hlk (by simp [lookupSection])
  | cons s rest ih =>
    obtain ⟨k0, rs0⟩ := s
    simp only [List.map_cons, List.nodup_cons] at hknodup
    by_cases hk : k0 = k
    · subst hk
      have hrs : rs0 = rs := by
        rw [lookupSection] at hlk
        simpa using hlk
      subst hrs
      have hrestk : ∀ s2 ∈ rest, s2.1 ≠ k0 := by
        intro s2 hs2 hc
        exact hknodup.1 (hc ▸ List.mem_map_of_mem Prod.fst hs2)
      have htail : rest.filterMap (cleanupEntry ((k0, idxs) :: M))
          = rest.filterMap (cleanupEntry M) :=
        List.filterMap_congr (fun s2 hs2 => cleanupEntry_skip (hrestk s2 hs2))
      rw [List.filterMap_cons, cleanupEntry_marked_head]
      by_cases hc : ((remainingRecords idxs rs0).length == 0) = true
      case pos =>
        rw [if_pos hc, if_pos hc]
        have hrm : removeKey ((k0, rs0) :: rest) k0 = rest := by
          rw [removeKey, List.filter_cons]
          simp only [beq_self_eq_true, Bool.not_true, Bool.false_eq_true, if_false]
          rw [show List.filter (fun p => !(p.1 == k0)) rest = removeKey rest k0 from rfl,
            removeKey_not_mem hknodup.1]
        rw [hrm, htail]
      case neg =>
        rw [if_neg hc, if_neg hc]
        have hup : updateSection ((k0, rs0) :: rest) k0
            (fun _ => remainingRecords idxs rs0)
            = (k0, remainingRecords idxs rs0) :: rest := by
          rw [updateSection]
          simp
        rw [hup, List.filterMap_cons,
          cleanupEntry_not_marked (fun p hp => hkM p hp), htail]
    · have hbeq : (k0 == k) = false := by simpa using hk
      rw [lookupSection, hbeq] at hlk
      simp only [Bool.false_eq_true, if_false] at hlk
      have ihh := ih hlk hknodup.2
      by_cases hc : ((remainingRecords idxs rs).length == 0) = true
      case pos =>
        rw [if_pos hc] at ihh ⊢
        have hrm : removeKey ((k0, rs0) :: rest) k
            = (k0, rs0) :: removeKey rest k := by
          rw [removeKey, List.filter_cons]
          simp only [hbeq, Bool.not_false, if_pos]
          rfl
        rw [hrm, List.filterMap_cons, List.filterMap_cons,
          cleanupEntry_skip (show (k0, rs0).1 ≠ k from hk), ihh]
      case neg =>
        rw [if_neg hc] at ihh ⊢
        have hup : updateSection ((k0, rs0) :: rest) k
            (fun _ => remainingRecords idxs rs)
            = (k0, rs0) :: updateSection rest k (fun _ => remainingRecords idxs rs) := by
          rw [updateSection, hbeq]
          simp
        rw [hup, List.filterMap_cons, List.filterMap_cons,
          cleanupEntry_skip (show (k0, rs0).1 ≠ k from hk), ihh]

lemma migrateCleanup_ok {marked : List (String × List Nat)} :
    ∀ {sections : List (String × List ResourceRecord)},
    (sections.map Prod.fst).Nodup →
    (marked.map Prod.fst).Nodup →
    (∀ p ∈ marked, ∃ rs, lookupSection sections p.1 = some rs ∧
      p.2.Nodup ∧ ∀ i ∈ p.2, i < rs.length) →
    migrateCleanup sections (marked.map (fun p => (some p.1, p.2)))
      = .ok (cleanupSpec sections marked) := by
  induction marked with
  | nil =>
    intro sections _ _ _
    rw [List.map_nil, migrateCleanup, cleanupSpec_nil]
  | cons p M ih =>
    intro sections hknodup hmnodup hvalid
    obtain ⟨k, idxs⟩ := p
    obtain ⟨rs, hlk, hnd, hb⟩ := hvalid (k, idxs) (by simp)
    simp only [List.map_cons, List.nodup_cons] at hmnodup
    rw [List.map_cons, migrateCleanup, cleanupOne_ok hlk hnd hb,
      exAux_eq_remainingRecords]
    have hvalid2 : ∀ kres : List (String × List ResourceRecord),
        (∀ q, q ∈ M → lookupSection kres q.1 = lookupSection sections q.1) →
        (∀ q ∈ M, ∃ rs2, lookupSection kres q.1 = some rs2 ∧
          q.2.Nodup ∧ ∀ i ∈ q.2, i < rs2.length) := by
      intro kres hsame q hq
      obtain ⟨rs2, hlk2, hnd2, hb2⟩ := hvalid q (by simp [hq])
      exact ⟨rs2, (hsame q hq).trans hlk2, hnd2, hb2⟩
    have hqk : ∀ q ∈ M, q.1 ≠ k := by
      intro q hq hc
      exact hmnodup.1 (hc ▸ List.mem_map_of_mem Prod.fst hq)
    by_cases hc : ((remainingRecords idxs rs).length == 0) = true
    case pos =>
      rw [if_pos hc]
      show migrateCleanup (removeKey sections k) (M.map (fun p => (some p.1, p.2)))
        = _
      rw [ih (removeKey_keys_nodup hknodup) hmnodup.2
        (hvalid2 _ (fun q hq => lookupSection_removeKey_ne (hqk q hq)))]
      rw [cleanupSpec_step hlk hknodup hqk, if_pos hc]
    case neg =>
      rw [if_neg hc]
      show migrateCleanup
        (updateSection sections k (fun _ => remainingRecords idxs rs))
        (M.map (fun p => (some p.1, p.2))) = _
      have hnodup2 : ((updateSection sections k
          (fun _ => remainingRecords idxs rs)).map Prod.fst).Nodup := by
        rw [updateSection_keys]
        exact hknodup
      rw [ih hnodup2 hmnodup.2
        (hvalid2 _ (fun q hq => lookupSection_updateSection_ne (hqk q hq) _))]
      rw [cleanupSpec_step hlk hknodup hqk, if_neg hc]

lemma rstrip_decomp (l : List Char) :
    ∃ t, l = (l.reverse.dropWhile Char.isWhitespace).reverse ++ t ∧
      ∀ c ∈ t, Char.isWhitespace c := by
  refine ⟨(l.reverse.takeWhile Char.isWhitespace).reverse, ?_, ?_⟩
  · conv_lhs => rw [← l.reverse_reverse]
    conv_lhs =>
      rw [← List.takeWhile_append_dropWhile (p := Char.isWhitespace) (l := l.reverse)]
    rw [List.reverse_append]
  · intro c hc
    exact List.mem_takeWhile_imp (List.mem_reverse.mp hc)

lemma serialize_colon_mem (s : String × List ResourceRecord)
    (tail : List (String × List ResourceRecord)) :
    ':' ∈ (strJoin ((s :: tail).map serializeSection)).data := by
  rw [List.map_cons, strJoin, String.data_append]
  apply List.mem_append_left
  rw [serializeSection]
  rw [show s.1 ++ ":\n" ++ strJoin (s.2.map serializeRecord)
    = s.1 ++ (":\n" ++ strJoin (s.2.map serializeRecord)) from by
      rw [String.append_assoc]]
  rw [String.data_append]
  apply List.mem_append_right
  rw [String.data_append]
  apply List.mem_append_left
  decide

lemma onlyVersionMarker_iff {d : PropertyFileDict} (hv : d.version = 2) :
    onlyVersionMarker (serializeDoc d) = true ↔ d.sections = [] := by
  obtain ⟨v, sections⟩ := d
  simp only at hv
  subst hv
  constructor
  · intro h
    by_contra hne
    obtain ⟨s, tail, rfl⟩ : ∃ s tail, sections = s :: tail := by
      cases sections with
      | nil => exact absurd rfl hne
      | cons a t => exact ⟨a, t, rfl⟩
    have heqBeq := eq_of_beq h
    set rest := (strJoin ((s :: tail).map serializeSection)).data with hrest
    have hfull : (serializeDoc { version := 2, sections := s :: tail }).data
        = "version: 2".data ++ ('\n' :: rest) := by
      rw [serializeDoc]
      rw [String.data_append, String.data_append, String.data_append]
      rw [show ("version: ".data ++ (Nat.repr 2).data ++ "\n".data)
          = "version: 2".data ++ ['\n'] from by decide] at *
      · rw [List.append_assoc]
        rfl
    rw [hfull] at heqBeq
    have hdrop : List.dropWhile Char.isWhitespace
        ("version: 2".data ++ ('\n' :: rest)) = "version: 2".data ++ ('\n' :: rest) := by
      rw [show ("version: 2".data ++ ('\n' :: rest)) = 'v' ::
        ("ersion: 2".data ++ ('\n' :: rest)) from rfl]
      rw [List.dropWhile_cons]
      simp
    rw [pyStripChars, hdrop] at heqBeq
    obtain ⟨t, hsplit, hws⟩ := rstrip_decomp ("version: 2".data ++ ('\n' :: rest))
    set strip := (("version: 2".data ++ ('\n' :: rest)).reverse.dropWhile
      Char.isWhitespace).reverse with hstrip
    have hlen : strip.length = 10 := by
      have h1 : (pyLowerChars strip).length = strip.length := by
        rw [pyLowerChars, List.length_map]
      have h2 : ("version: 2".data).length = 10 := by decide
      rw [← h1, heqBeq, h2]
    have ht : t = '\n' :: rest := by
      have h3 : ("version: 2".data ++ ('\n' :: rest)).drop 10 = '\n' :: rest := by
        rw [show (10 : Nat) = ("version: 2".data).length from by decide]
        exact List.drop_left _ _
      rw [hsplit] at h3
      rw [← h3, ← hlen, List.drop_left]
    have hcol : Char.isWhitespace ':' = true := by
      apply hws
      rw [ht]
      exact List.mem_cons_of_mem _ (serialize_colon_mem s tail)
    exact absurd hcol (by decide)
  · intro h
    simp only at h
    subst h
    decide

/-- C6: after processing a migration group, the cleanup removes exactly the
marked section indices (working in descending index order), drops every
section whose resource list becomes empty, rewrites the source with exactly
the remaining resources, and deletes the source file exactly when the
remaining content is just the version marker. -/
theorem C6_migration_cleanup
    (doc : PropertyFileDict) (marked : List (String × List Nat))
    (hv : doc.version = 2)
    (hknodup : (doc.sections.map Prod.fst).Nodup)
    (hmnodup : (marked.map Prod.fst).Nodup)
    (hvalid : ∀ p ∈ marked, ∃ rs, lookupSection doc.sections p.1 = some rs ∧
      p.2.Nodup ∧ ∀ i ∈ p.2, i < rs.length) :
    ∃ doc' deleted,
      migrateCleanupPhase doc (marked.map (fun p => (some p.1, p.2)))
        = .ok (doc', deleted) ∧
      doc'.version = doc.version ∧
      doc'.sections = cleanupSpec doc.sections marked ∧
      (deleted = true ↔ doc'.sections = []) := by
  refine ⟨{ doc with sections := cleanupSpec doc.sections marked },
    onlyVersionMarker (serializeDoc
      { doc with sections := cleanupSpec doc.sections marked }), ?_, rfl, rfl, ?_⟩
  · rw [migrateCleanupPhase, migrateCleanup_ok hknodup hmnodup hvalid]
    rfl
  · exact onlyVersionMarker_iff (show ({ doc with
      sections := cleanupSpec doc.sections marked }).version = 2 from hv)

/-- Witness for C6 at a concrete input: both records of the single section
marked for removal; the section is dropped, the remaining content is just
the version marker, and the source file is deleted. -/
theorem C6_migration_cleanup_witness :
    migrateCleanupPhase exC5doc [(some "models", [0, 1])]
      = .ok ({ version := 2, sections := [] }, true) ∧
    ∃ doc' deleted,
      migrateCleanupPhase exC5doc
        ([("models", [0, 1])].map (fun p => (some p.1, p.2)))
        = .ok (doc', deleted) ∧
      doc'.version = exC5doc.version ∧
      doc'.sections = cleanupSpec exC5doc.sections [("models", [0, 1])] ∧
      (deleted = true ↔ doc'.sections = []) :=
  ⟨rfl,
    C6_migration_cleanup exC5doc [("models", [0, 1])] rfl (by decide) (by decide)
      (by
        intro p hp
        simp only [List.mem_singleton] at hp
        subst hp
        exact ⟨_, rfl, by decide, by decide⟩)⟩

lemma coordFold (resources : List (String × Option String)) :
    ∀ (completion : List Nat) (init : CoordState),
    completion.foldl (coordStep resources) init =
      { successes := init.successes + completion.countP (succP resources),
        failures := init.failures + completion.countP (failP resources),
        stored := init.stored ++ completion.filterMap (storedOf resources),
        events := init.events ++ completion.filterMap (eventOf resources) } := by
  intro completion
  induction completion with
  | nil =>
    intro init
    simp [List.foldl, List.countP_nil, List.filterMap_nil]
  | cons idx rest ih =>
    intro init
    rw [List.foldl_cons, ih]
    rw [List.countP_cons, List.countP_cons, List.filterMap_cons, List.filterMap_cons]
    cases hr : resources[idx]? with
    | none =>
      have h1 : succP resources idx = false := by simp [succP, hr]
      have h2 : failP resources idx = false := by simp [failP, hr]
      have h3 : storedOf resources idx = none := by simp [storedOf, hr]
      have h4 : eventOf resources idx = none := by simp [eventOf, hr]
      rw [h1, h2, h3, h4]
      simp [coordStep, List.get?_eq_getElem?, hr]
    | some le =>
      obtain ⟨loc, exc⟩ := le
      cases exc with
      | none =>
        have h1 : succP resources idx = true := by simp [succP, hr]
        have h2 : failP resources idx = false := by simp [failP, hr]
        have h3 : storedOf resources idx = none := by simp [storedOf, hr]
        have h4 : eventOf resources idx =
            some ("[SUCCESS] " ++ progressMsg (idx + 1) resources.length loc) := by
          simp [eventOf, hr]
        rw [h1, h2, h3, h4]
        simp only [coordStep, List.get?_eq_getElem?, hr]
        congr 1 <;> simp [Nat.add_assoc, Nat.add_comm 1]
      | some e =>
        have h1 : succP resources idx = false := by simp [succP, hr]
        have h2 : failP resources idx = true := by simp [failP, hr]
        have h3 : storedOf resources idx =
            some (idx, tracebackMsg idx resources.length loc e) := by
          simp [storedOf, hr]
        have h4 : eventOf resources idx =
            some ("[FAILURE] " ++ progressMsg (idx + 1) resources.length loc) := by
          simp [eventOf, hr]
        rw [h1, h2, h3, h4]
        simp only [coordStep, List.get?_eq_getElem?, hr]
        congr 1 <;> simp [Nat.add_assoc, Nat.add_comm 1]

lemma storedOf_fst {resources : List (String × Option String)} {idx : Nat}
    {p : Nat × String} (h : storedOf resources idx = some p) : p.1 = idx := by
  unfold storedOf at h
  cases hr : resources.get? idx with
  | none => rw [hr] at h; exact absurd h (by simp)
  | some le =>
    obtain ⟨loc, exc⟩ := le
    cases exc with
    | none => rw [hr] at h; exact absurd h (by simp)
    | some e =>
      rw [hr] at h
      injection h with h
      rw [← h]

lemma lookupStored_filterMap {resources : List (String × Option String)}
    {completion : List Nat} (hnd : completion.Nodup) (i : Nat) :
    lookupStored (completion.filterMap (storedOf resources)) i
      = if i ∈ completion then (storedOf resources i).map Prod.snd else none := by
  induction completion with
  | nil => simp [lookupStored]
  | cons c rest ih =>
    rw [List.nodup_cons] at hnd
    rw [List.filterMap_cons]
    cases hs : storedOf resources c with
    | none =>
      rw [ih hnd.2]
      by_cases hic : i = c
      · subst hic
        simp only [List.mem_cons, true_or, if_pos]
        rw [if_neg (fun hmem => hnd.1 hmem), hs]
        rfl
      · simp only [List.mem_cons]
        by_cases hmem : i ∈ rest
        · rw [if_pos hmem, if_pos (Or.inr hmem)]
        · rw [if_neg hmem, if_neg (by
            intro hor
            rcases hor with h | h
            · exact hic h
            · exact hmem h)]
    | some p =>
      have hfst : p.1 = c := storedOf_fst hs
      rw [lookupStored, List.find?_cons]
      by_cases hic : i = c
      · subst hic
        have hbeq : (p.1 == i) = true := by simpa using hfst
        rw [hbeq]
        simp only [Option.map_some']
        rw [if_pos (by simp), hs]
        rfl
      · have hbeq : (p.1 == i) = false := by
          simpa using fun hh => hic (hfst ▸ hh).symm
        rw [hbeq]
        rw [show ((List.filterMap (storedOf resources) rest).find?
            (fun q => q.1 == i)).map (·.2)
          = lookupStored (List.filterMap (storedOf resources) rest) i from rfl]
        rw [ih hnd.2]
        simp only [List.mem_cons]
        by_cases hmem : i ∈ rest
        · rw [if_pos hmem, if_pos (Or.inr hmem)]
        · rw [if_neg hmem, if_neg (by
            intro hor
            rcases hor with h | h
            · exact hic h
            · exact hmem h)]

lemma countP_range_get {α : Type} :
    ∀ (l : List α) (p : α → Bool) (q : Nat → Bool),
    (∀ i, ∀ a, l.get? i = some a → q i = p a) →
    (List.range l.length).countP q = l.countP p := by
  intro l
  induction l with
  | nil => intro p q _; simp
  | cons a t ih =>
    intro p q hq
    rw [List.length_cons, List.range_succ_eq_map, List.countP_cons,
      List.countP_map, List.countP_cons]
    have h0 : q 0 = p a := hq 0 a rfl
    have ht : (List.countP (q ∘ Nat.succ) (List.range t.length))
        = List.countP p t := by
      apply ih
      intro i b hb
      exact hq (i + 1) b (by simpa using hb)
    rw [h0, ht]

lemma filterMap_length_all_isSome {α β : Type} {f : α → Option β} :
    ∀ {l : List α}, (∀ x ∈ l, (f x).isSome) → (l.filterMap f).length = l.length := by
  intro l
  induction l with
  | nil => intro _; rfl
  | cons a t ih =>
    intro h
    rw [List.filterMap_cons]
    cases hf : f a with
    | none =>
      exact absurd (hf ▸ h a (by simp)) (by simp)
    | some b =>
      rw [List.length_cons, ih (fun x hx => h x (by simp [hx]))]
      rfl

/-- C8: for every coordinator run, whatever order the pool completes the
tasks in, the captured tracebacks of all failed resources are emitted in
original submission order, the summary total equals successes plus failures
with each selected resource counted exactly once, one completion event is
emitted per resource, and no per-resource exception escapes (the
coordinator is a total function of the outcomes). -/
theorem C8_coordinator_report
    (resources : List (String × Option String)) (completion : List Nat)
    (hperm : completion.Perm (List.range resources.length)) :
    (_create_all_property_files resources completion).summaryTotal
      = (_create_all_property_files resources completion).successes
        + (_create_all_property_files resources completion).failures ∧
    (_create_all_property_files resources completion).successes
      = resources.countP (fun r => r.2.isNone) ∧
    (_create_all_property_files resources completion).failures
      = resources.countP (fun r => r.2.isSome) ∧
    (_create_all_property_files resources completion).successes
      + (_create_all_property_files resources completion).failures
      = resources.length ∧
    (_create_all_property_files resources completion).events.length
      = resources.length ∧
    ((_create_all_property_files resources completion).failures ≠ 0 →
      (_create_all_property_files resources completion).tracebacks
        = submissionTracebacks resources) := by
  have hnd : completion.Nodup := hperm.nodup_iff.mpr (List.nodup_range _)
  have hfold := coordFold resources completion
    { successes := 0, failures := 0, stored := [], events := [] }
  have hsucc : (_create_all_property_files resources completion).successes
      = resources.countP (fun r => r.2.isNone) := by
    show (completion.foldl (coordStep resources)
      { successes := 0, failures := 0, stored := [], events := [] }).successes
      = _
    rw [hfold]
    show 0 + completion.countP (succP resources) = _
    rw [Nat.zero_add, hperm.countP_eq]
    apply countP_range_get
    intro i a ha
    unfold succP
    rw [ha]
    obtain ⟨loc, exc⟩ := a
    cases exc <;> rfl
  have hfail : (_create_all_property_files resources completion).failures
      = resources.countP (fun r => r.2.isSome) := by
    show (completion.foldl (coordStep resources)
      { successes := 0, failures := 0, stored := [], events := [] }).failures
      = _
    rw [hfold]
    show 0 + completion.countP (failP resources) = _
    rw [Nat.zero_add, hperm.countP_eq]
    apply countP_range_get
    intro i a ha
    unfold failP
    rw [ha]
    obtain ⟨loc, exc⟩ := a
    cases exc <;> rfl
  have htotal : resources.countP (fun r => r.2.isNone)
      + resources.countP (fun r => r.2.isSome) = resources.length := by
    have h1 := List.length_eq_countP_add_countP (fun r : String × Option String =>
      r.2.isNone) resources
    have h2 : resources.countP (fun r => ¬ r.2.isNone)
        = resources.countP (fun r => r.2.isSome) := by
      apply List.countP_congr
      intro r _
      cases hr : r.2 <;> simp [hr]
    rw [h1, h2]
  refine ⟨rfl, hsucc, hfail, ?_, ?_, ?_⟩
  · rw [hsucc, hfail, htotal]
  · show (completion.foldl (coordStep resources)
      { successes := 0, failures := 0, stored := [], events := [] }).events.length
      = _
    rw [hfold]
    show (List.filterMap (eventOf resources) completion).length = _
    rw [filterMap_length_all_isSome ?hall, hperm.length_eq, List.length_range]
    case hall =>
      intro idx hidx
      have hlt : idx < resources.length := by
        have := hperm.mem_iff.mp hidx
        simpa using this
      obtain ⟨a, ha⟩ : ∃ a, resources.get? idx = some a :=
        ⟨_, List.get?_eq_get hlt⟩
      unfold eventOf
      rw [ha]
      obtain ⟨loc, exc⟩ := a
      cases exc <;> rfl
  · intro hfail0
    show (if (completion.foldl (coordStep resources)
        { successes := 0, failures := 0, stored := [], events := [] }).failures ≠ 0
      then (List.range resources.length).filterMap (fun i =>
        lookupStored (completion.foldl (coordStep resources)
          { successes := 0, failures := 0, stored := [], events := [] }).stored i)
      else []) = _
    rw [if_pos (by
      show (completion.foldl (coordStep resources)
        { successes := 0, failures := 0, stored := [], events := [] }).failures ≠ 0
      exact hfail0)]
    rw [hfold]
    show (List.range resources.length).filterMap (fun i =>
      lookupStored ([] ++ completion.filterMap (storedOf resources)) i)
      = _
    rw [List.nil_append]
    unfold submissionTracebacks
    apply List.filterMap_congr
    intro i hi
    rw [lookupStored_filterMap hnd i,
      if_pos (hperm.mem_iff.mpr hi)]

/-- Witness for C8 at a concrete input: with completion order 2, 0, 1 the
tracebacks still come out in submission order and the summary counts every
resource exactly once. -/
theorem C8_coordinator_report_witness :
    (_create_all_property_files exC8 [2, 0, 1]).failures ≠ 0 ∧
    (_create_all_property_files exC8 [2, 0, 1]).tracebacks
      = submissionTracebacks exC8 ∧
    (_create_all_property_files exC8 [2, 0, 1]).successes
      + (_create_all_property_files exC8 [2, 0, 1]).failures = 3 := by
  have h := C8_coordinator_report exC8 [2, 0, 1] (by decide)
  exact ⟨by decide, h.2.2.2.2.2 (by decide), h.2.2.2.1⟩

lemma chooseLoop_valid {options : List (String × List String)}
    {inputs : List String} {i : Nat}
    (h : chooseLoop options inputs = some (some i)) : i < options.length := by
  induction inputs with
  | nil => exact absurd h (by simp [chooseLoop])
  | cons inp rest ih =>
    rw [chooseLoop] at h
    cases hp : parseChoice inp options.length with
    | none => rw [hp] at h; exact ih h
    | some c =>
      rw [hp] at h
      injection h with h
      subst h
      unfold parseChoice at hp
      by_cases hs : (inp == "s") = true
      · rw [if_pos hs] at hp
        exact absurd hp (by simp)
      · rw [if_neg hs] at hp
        cases hn : natFromChars inp.data with
        | none => rw [hn] at hp; exact absurd hp (by simp)
        | some j =>
          rw [hn] at hp
          simp only [] at hp
          by_cases hj : j < options.length
          · rw [if_pos hj] at hp
            injection hp with hp
            injection hp with hp
            exact hp ▸ hj
          · rw [if_neg hj] at hp
            exact absurd hp (by simp)

/-- C9: for a target column lacking a description, the apply pass of the
fill engine (modelled from the spec) applies the single collected
description automatically, presents all options and honours the first valid
index or explicit skip while re-prompting on invalid input when several
distinct descriptions were collected, and leaves the column undocumented
when none was collected. -/
theorem C9_fill_conflict_resolution
    (m : List (String × List (String × List String)))
    (colName : String) (inputs : List String) :
    (collectedFor m colName = [] →
      applyColumn m colName "" inputs = ("", [])) ∧
    (∀ d rs, collectedFor m colName = [(d, rs)] →
      applyColumn m colName "" inputs = (d, [])) ∧
    (∀ opts, collectedFor m colName = opts → 2 ≤ opts.length →
      ((applyColumn m colName "" inputs).2 = opts.map renderOption ∧
       (∀ i, chooseLoop opts inputs = some (some i) →
         ∃ opt, opts.get? i = some opt ∧
           (applyColumn m colName "" inputs).1 = opt.1) ∧
       (chooseLoop opts inputs = some none →
         (applyColumn m colName "" inputs).1 = "") ∧
       (∀ bad rest, parseChoice bad opts.length = none →
         chooseLoop opts (bad :: rest) = chooseLoop opts rest))) := by
  refine ⟨?_, ?_, ?_⟩
  · intro hc
    rw [applyColumn, if_pos (by simp), hc]
  · intro d rs hc
    rw [applyColumn, if_pos (by simp), hc]
  · intro opts hc hlen
    obtain ⟨a, b, rest', hopts⟩ : ∃ a b rest', opts = a :: b :: rest' := by
      cases opts with
      | nil => exact absurd hlen (by simp)
      | cons a t =>
        cases t with
        | nil => exact absurd hlen (by simp)
        | cons b r => exact ⟨a, b, r, rfl⟩
    subst hopts
    have happ : applyColumn m colName "" inputs =
        (match chooseLoop (a :: b :: rest') inputs with
         | some (some i) =>
           ((((a :: b :: rest').get? i).map (·.1)).getD "",
             (a :: b :: rest').map renderOption)
         | some none => ("", (a :: b :: rest').map renderOption)
         | none => ("", (a :: b :: rest').map renderOption)) := by
      rw [applyColumn, if_pos (by simp), hc]
    refine ⟨?_, ?_, ?_, ?_⟩
    · rw [happ]
      cases hcl : chooseLoop (a :: b :: rest') inputs with
      | none => rfl
      | some c => cases c <;> rfl
    · intro i hcl
      have hlt := chooseLoop_valid hcl
      have hget : (a :: b :: rest').get? i
          = some ((a :: b :: rest').get ⟨i, hlt⟩) := List.get?_eq_get hlt
      refine ⟨(a :: b :: rest').get ⟨i, hlt⟩, hget, ?_⟩
      rw [happ, hcl]
      simp only [hget, Option.map_some', Option.getD_some]
    · intro hcl
      rw [happ, hcl]
    · intro bad rest hbad
      rw [chooseLoop, hbad]

/-- Witness for C9 at concrete inputs: column a has one collected
description (applied automatically); column b has two (the second input is
valid after an invalid first answer); column c has none. -/
theorem C9_fill_conflict_resolution_witness :
    applyColumn [("a", [("the a column", ["orders"])])] "a" "" [] =
      ("the a column", []) ∧
    applyColumn
      [("b", [("d one", ["orders"]), ("d two", ["customers", "payments"])])]
      "b" "" ["x", "1"] =
      ("d two", ["d one (from orders)", "d two (from customers and 1 more)"]) ∧
    applyColumn [] "c" "" [] = ("", []) := by
  have h1 := (C9_fill_conflict_resolution
    [("a", [("the a column", ["orders"])])] "a" []).2.1
    "the a column" ["orders"] (by decide)
  have h3 := (C9_fill_conflict_resolution [] "c" []).1 (by decide)
  exact ⟨h1, by decide, h3⟩
